import Mathlib

/-!
Shallow embedding of the UnserEvent membership backend.

The embedding follows the source files:
  app/services/permissions.py  (permission engine, hierarchy resolver)
  app/services/auth.py         (credential store, token service)
  app/api/teams.py             (team handlers: create, proxy create, update, promote)
  app/models/*.py              (relational schema)

Conventions:
  * UUIDs are modelled as `Nat`; `datetime` values as `Nat` (seconds).
  * The relational store is a record of lists of rows; SQLAlchemy's
    `select(...).where(...)` becomes `List.filter`, `scalar_one_or_none`
    becomes `scalarOneOrNone` (which errors on more than one row, like
    SQLAlchemy's `MultipleResultsFound`), `scalars().all()` is the filtered
    list itself, and a commit of an ORM-object mutation becomes a `List.map`
    that rewrites exactly the selected row.
  * Python functions that can raise return `Except Err`; an uncaught
    exception is an `Except.error`.
  * Nondeterministic inputs (current time, freshly generated random tokens,
    freshly generated primary keys) are passed as explicit arguments.
-/

/-- Exceptions surfaced by the embedded operations: SQLAlchemy's
`MultipleResultsFound`, nontermination of an unguarded loop (fuel
exhaustion), an argon2 `InvalidHashError`, and FastAPI's `HTTPException`
with its status code. -/
inductive Err where
  | multipleResults : Err
  | divergence : Err
  | invalidHash : Err
  | http : Nat → Err
deriving DecidableEq

/-- SQLAlchemy `Result.scalar_one_or_none()`: `none` on zero rows, the row on
exactly one, and a `MultipleResultsFound` error on two or more. -/
def scalarOneOrNone {α : Type} : List α → Except Err (Option α)
  | [] => .ok none
  | [a] => .ok (some a)
  | _ :: _ :: _ => .error .multipleResults

/-- `DivisionRole` enum from app/models/division.py. -/
inductive DivisionRole where
  | member
  | manager
  | admin
deriving DecidableEq

/-- `TeamRole` enum from app/models/team.py. -/
inductive TeamRole where
  | player
  | coach
  | manager
  | medic
  | staff
deriving DecidableEq

/-- Row of the `users` table (app/models/user.py). -/
structure UserRec where
  id : Nat
  username : String
  password_hash : String
  is_active : Bool
deriving DecidableEq

/-- Row of the `roles` table (app/models/auth.py). -/
structure RoleRec where
  id : Nat
  name : String
deriving DecidableEq

/-- Row of the `user_roles` table (app/models/auth.py); the `id` primary key
is irrelevant to every query and omitted. -/
structure UserRoleRec where
  user_id : Nat
  role_id : Nat
deriving DecidableEq

/-- Row of the `divisions` table (app/models/division.py). -/
structure DivisionRec where
  id : Nat
  parent_id : Option Nat
deriving DecidableEq

/-- Row of the `division_members` table (app/models/division.py); the row's
own primary key is irrelevant to every query and omitted. -/
structure DivisionMemberRec where
  division_id : Nat
  person_id : Nat
  role : DivisionRole
deriving DecidableEq

/-- Row of the `teams` table (app/models/team.py); audit columns
(created_at, created_by_id, ...) are omitted as no claim mentions them. -/
structure TeamRec where
  id : Nat
  name : String
  description : Option String
  division_id : Option Nat
  external_org : Option String
  responsible_id : Option Nat
  promoted_at : Option Nat
deriving DecidableEq

/-- `Team.is_proxy` property: no responsible person. -/
def TeamRec.is_proxy (t : TeamRec) : Bool :=
  t.responsible_id == none

/-- `Team.is_external` property: no division. -/
def TeamRec.is_external (t : TeamRec) : Bool :=
  t.division_id == none

/-- Row of the `team_members` table (app/models/team.py). -/
structure TeamMemberRec where
  id : Nat
  team_id : Nat
  person_id : Nat
  role : TeamRole
deriving DecidableEq

/-- Row of the `refresh_tokens` table (app/models/auth.py). -/
structure RefreshTokenRec where
  id : Nat
  user_id : Nat
  token_hash : String
  device_info : Option String
  created_at : Nat
  expires_at : Nat
  revoked_at : Option Nat
deriving DecidableEq

/-- `RefreshToken.is_revoked` property. -/
def RefreshTokenRec.is_revoked (r : RefreshTokenRec) : Bool :=
  !(r.revoked_at == none)

/-- `RefreshToken.is_expired` property: `expires_at < utcnow()`. -/
def RefreshTokenRec.is_expired (r : RefreshTokenRec) (now : Nat) : Bool :=
  decide (r.expires_at < now)

/-- `RefreshToken.is_valid` property: not revoked and not expired. -/
def RefreshTokenRec.is_valid (r : RefreshTokenRec) (now : Nat) : Bool :=
  !(r.is_revoked) && !(r.is_expired now)

/-- The relational store: one list of rows per table. -/
structure DB where
  users : List UserRec
  roles : List RoleRec
  user_roles : List UserRoleRec
  divisions : List DivisionRec
  division_members : List DivisionMemberRec
  teams : List TeamRec
  team_members : List TeamMemberRec
  refresh_tokens : List RefreshTokenRec
deriving DecidableEq

/-- Database-enforced schema constraints (primary keys and the unique
constraints declared in app/models): unique ids on users/roles/divisions/
teams, unique role names, and the `uq_user_role` composite constraint.
Deliberately absent: uniqueness of (division_id, person_id) in
division_members, of (team_id, person_id) in team_members, and of
token_hash in refresh_tokens — the schema declares none of these. -/
structure DB.wf (db : DB) : Prop where
  users_nodup : (db.users.map (·.id)).Nodup
  roles_id_nodup : (db.roles.map (·.id)).Nodup
  roles_name_nodup : (db.roles.map (·.name)).Nodup
  user_roles_nodup : (db.user_roles.map (fun ur => (ur.user_id, ur.role_id))).Nodup
  divisions_nodup : (db.divisions.map (·.id)).Nodup
  teams_nodup : (db.teams.map (·.id)).Nodup

/-! ## Permission engine (app/services/permissions.py) -/

/-- Rows produced by `select(UserRole).join(Role).where(UserRole.user_id ==
user_id, Role.name == role_name)`: the join pairs each user_role with the
roles matching its `role_id`. -/
def globalRoleRows (db : DB) (user_id : Nat) (role_name : String) : List UserRoleRec :=
  db.user_roles.flatMap (fun ur =>
    if ur.user_id == user_id then
      (db.roles.filter (fun r => r.id == ur.role_id && r.name == role_name)).map (fun _ => ur)
    else [])

/-- `has_global_role` (permissions.py:13). -/
def has_global_role (db : DB) (user_id : Nat) (role_name : String) : Except Err Bool := do
  let row ← scalarOneOrNone (globalRoleRows db user_id role_name)
  return row.isSome

/-- `is_admin` (permissions.py:28). -/
def is_admin (db : DB) (user_id : Nat) : Except Err Bool :=
  has_global_role db user_id "admin"

/-- `is_superuser` (permissions.py:33). -/
def is_superuser (db : DB) (user_id : Nat) : Except Err Bool :=
  has_global_role db user_id "superuser"

/-- `has_elevated_privileges` (permissions.py:38): `is_superuser or is_admin`
with Python's short-circuit evaluation. -/
def has_elevated_privileges (db : DB) (user_id : Nat) : Except Err Bool := do
  let su ← is_superuser db user_id
  if su then return true else is_admin db user_id

/-- `get_division_role` (permissions.py:46). -/
def get_division_role (db : DB) (user_id division_id : Nat) :
    Except Err (Option DivisionRole) := do
  let user ← scalarOneOrNone (db.users.filter (fun u => u.id == user_id))
  match user with
  | none => return none
  | some _ => do
    let membership ← scalarOneOrNone (db.division_members.filter
        (fun m => m.person_id == user_id && m.division_id == division_id))
    return membership.map (·.role)

/-- The `select(Division).where(Division.id == current_id)` row set. -/
def findDivisionRows (db : DB) (i : Nat) : List DivisionRec :=
  db.divisions.filter (fun d => d.id == i)

/-- Body of the `while` loop of `get_division_ancestors` (permissions.py:70),
with explicit fuel: the source has no cycle guard, so on a cyclic store the
loop never terminates, which the fuel-exhausted case models as an error. -/
def ancestorsFuel (db : DB) : Nat → Nat → Except Err (List Nat)
  | 0, _ => .error .divergence
  | fuel + 1, current => do
    let division ← scalarOneOrNone (findDivisionRows db current)
    match division with
    | none => return []
    | some d =>
      match d.parent_id with
      | none => return []
      | some p => do
        let rest ← ancestorsFuel db fuel p
        return p :: rest

/-- `get_division_ancestors` (permissions.py:70). On an acyclic store the
walk visits pairwise distinct divisions, so `db.divisions.length + 1` steps
are never exhausted. -/
def get_division_ancestors (db : DB) (division_id : Nat) : Except Err (List Nat) :=
  ancestorsFuel db (db.divisions.length + 1) division_id

/-- The `for ancestor_id in ancestors` loop of `can_manage_division`
(permissions.py:118): first ancestor with role ADMIN short-circuits. -/
def anyAdminRole (db : DB) (user_id : Nat) : List Nat → Except Err Bool
  | [] => .ok false
  | d :: rest => do
    let role ← get_division_role db user_id d
    if role == some DivisionRole.admin then return true
    else anyAdminRole db user_id rest

/-- `can_manage_division` (permissions.py:95). -/
def can_manage_division (db : DB) (user_id division_id : Nat) : Except Err Bool := do
  let elevated ← has_elevated_privileges db user_id
  if elevated then return true
  else do
    let role ← get_division_role db user_id division_id
    if role == some DivisionRole.admin then return true
    else do
      let ancestors ← get_division_ancestors db division_id
      anyAdminRole db user_id ancestors

/-- The `for ancestor_id in ancestors` loop of `can_view_division`
(permissions.py:148): any non-null role short-circuits. -/
def anyRoleAtAll (db : DB) (user_id : Nat) : List Nat → Except Err Bool
  | [] => .ok false
  | d :: rest => do
    let role ← get_division_role db user_id d
    if role.isSome then return true
    else anyRoleAtAll db user_id rest

/-- `can_view_division` (permissions.py:126). -/
def can_view_division (db : DB) (user_id division_id : Nat) : Except Err Bool := do
  let elevated ← has_elevated_privileges db user_id
  if elevated then return true
  else do
    let role ← get_division_role db user_id division_id
    if role.isSome then return true
    else do
      let ancestors ← get_division_ancestors db division_id
      anyRoleAtAll db user_id ancestors

/-- `get_team_role` (permissions.py:156). -/
def get_team_role (db : DB) (user_id team_id : Nat) : Except Err (Option TeamRole) := do
  let membership ← scalarOneOrNone (db.team_members.filter
      (fun m => m.person_id == user_id && m.team_id == team_id))
  return membership.map (·.role)

/-- `can_manage_team` (permissions.py:172). -/
def can_manage_team (db : DB) (user_id team_id : Nat) : Except Err Bool := do
  let elevated ← has_elevated_privileges db user_id
  if elevated then return true
  else do
    let team_role ← get_team_role db user_id team_id
    if team_role == some TeamRole.manager || team_role == some TeamRole.coach then
      return true
    else do
      let team ← scalarOneOrNone (db.teams.filter (fun t => t.id == team_id))
      match team with
      | some t =>
        match t.division_id with
        | some d => can_manage_division db user_id d
        | none => return false
      | none => return false

/-- `can_view_team` (permissions.py:203). -/
def can_view_team (db : DB) (user_id team_id : Nat) : Except Err Bool := do
  let elevated ← has_elevated_privileges db user_id
  if elevated then return true
  else do
    let team_role ← get_team_role db user_id team_id
    if team_role.isSome then return true
    else do
      let team ← scalarOneOrNone (db.teams.filter (fun t => t.id == team_id))
      match team with
      | some t =>
        match t.division_id with
        | some d => can_view_division db user_id d
        | none => return false
      | none => return false

/-- The first `for membership in division_memberships` loop of
`can_manage_person` (permissions.py:258). -/
def anyManagedDivision (db : DB) (user_id : Nat) :
    List DivisionMemberRec → Except Err Bool
  | [] => .ok false
  | m :: rest => do
    let b ← can_manage_division db user_id m.division_id
    if b then return true else anyManagedDivision db user_id rest

/-- The second `for membership in team_memberships` loop of
`can_manage_person` (permissions.py:267). -/
def anyManagedTeam (db : DB) (user_id : Nat) :
    List TeamMemberRec → Except Err Bool
  | [] => .ok false
  | m :: rest => do
    let b ← can_manage_team db user_id m.team_id
    if b then return true else anyManagedTeam db user_id rest

/-- `can_manage_person` (permissions.py:234). -/
def can_manage_person (db : DB) (user_id person_id : Nat) : Except Err Bool := do
  let elevated ← has_elevated_privileges db user_id
  if elevated then return true
  else if user_id == person_id then return true
  else do
    let b ← anyManagedDivision db user_id
        (db.division_members.filter (fun m => m.person_id == person_id))
    if b then return true
    else
      let tms := db.team_members.filter (fun m => m.person_id == person_id)
      anyManagedTeam db user_id tms

/-- `assign_global_role` (permissions.py:274). `db.add` plus commit becomes
appending the new row; on failure the store is returned unchanged. -/
def assign_global_role (db : DB) (user_id : Nat) (role_name : String) :
    Except Err (Bool × DB) := do
  let role ← scalarOneOrNone (db.roles.filter (fun r => r.name == role_name))
  match role with
  | none => return (false, db)
  | some r => do
    let held ← has_global_role db user_id role_name
    if held then return (true, db)
    else return (true, { db with user_roles := db.user_roles ++ [⟨user_id, r.id⟩] })

/-! ## Credential store (app/services/auth.py) -/

/-- Result of argon2's `PasswordHasher.verify`, modelled from the argon2
library contract: success, `VerifyMismatchError` for a well-formed hash of a
different password, `InvalidHashError` for a string that is not an argon2
hash. -/
inductive Argon2Result where
  | ok
  | mismatch
  | invalidHash
deriving DecidableEq

/-- Tag beginning every well-formed argon2 hash in the model. -/
def argonTag : List Char := "argon2".data

/-- `hash_password` (auth.py:23): argon2 hashing, modelled as an injective
tagged encoding of the password: the model keeps exactly the property the
code relies on, that `ph.verify(h, p)` succeeds iff `h` was produced from
`p`, and that a string without the argon2 format tag is malformed. -/
def hash_password (password : String) : String :=
  String.mk (argonTag ++ password.data)

/-- argon2 `PasswordHasher.verify(hash, password)` outcome, modelled from
the library contract. -/
def ph_verify (password_hash password : String) : Argon2Result :=
  if password_hash = hash_password password then .ok
  else if argonTag.isPrefixOf password_hash.data then .mismatch
  else .invalidHash

/-- `verify_password` (auth.py:28): only `VerifyMismatchError` is caught; an
`InvalidHashError` raised on a malformed hash propagates to the caller. -/
def verify_password (password password_hash : String) : Except Err Bool :=
  match ph_verify password_hash password with
  | .ok => .ok true
  | .mismatch => .ok false
  | .invalidHash => .error .invalidHash

/-! ## Token service (app/services/auth.py) -/

/-- `settings.ACCESS_TOKEN_EXPIRE_MINUTES` default (app/config.py). -/
def ACCESS_TOKEN_EXPIRE_MINUTES : Nat := 15

/-- `settings.REFRESH_TOKEN_EXPIRE_DAYS` default (app/config.py). -/
def REFRESH_TOKEN_EXPIRE_DAYS : Nat := 7

/-- `settings.JWT_SECRET_KEY`: stands for the secret loaded from the
environment. -/
def JWT_SECRET_KEY : String := "server-secret"

/-- `hash_token` (auth.py:37): SHA-256 of the token, modelled as an
injective tagging — collision-freeness is the property the code relies
on. -/
def hash_token (token : String) : String :=
  String.mk ('#' :: token.data)

/-- The JWT claims written by `create_access_token` (auth.py:45). -/
structure JwtPayload where
  sub : String
  username : String
  exp : Nat
  type : String
deriving DecidableEq

/-- A wire token as seen by `jose.jwt.decode`, modelled from the jose
library contract: a structurally valid JWT carries its payload and the key
it was signed with; any other string is malformed. -/
inductive Token where
  | signed (payload : JwtPayload) (key : String) : Token
  | malformed (raw : String) : Token
deriving DecidableEq

/-- `jose.jwt.encode` model. -/
def jwt_encode (payload : JwtPayload) (key : String) : Token :=
  .signed payload key

/-- `jose.jwt.decode` model: raises `JWTError` (here `none`) on malformed
input, on a signature made with a different key, and on an `exp` claim that
is not strictly in the future. -/
def jwt_decode (t : Token) (key : String) (now : Nat) : Option JwtPayload :=
  match t with
  | .malformed _ => none
  | .signed payload k =>
    if k = key ∧ now < payload.exp then some payload else none

/-- `create_access_token` (auth.py:42). -/
def create_access_token (user_id : Nat) (username : String) (now : Nat) : Token :=
  jwt_encode
    { sub := toString user_id
      username := username
      exp := now + ACCESS_TOKEN_EXPIRE_MINUTES * 60
      type := "access" }
    JWT_SECRET_KEY

/-- `decode_access_token` (auth.py:61): any `JWTError` yields `None`; a
payload whose `type` claim is not `"access"` is rejected. -/
def decode_access_token (token : Token) (now : Nat) : Option JwtPayload :=
  match jwt_decode token JWT_SECRET_KEY now with
  | none => none
  | some payload => if payload.type ≠ "access" then none else some payload

/-- `create_refresh_token` (auth.py:54): the cryptographically random token
is an oracle argument; the expiry is `now` plus the refresh TTL. -/
def create_refresh_token (freshToken : String) (now : Nat) : String × Nat :=
  (freshToken, now + REFRESH_TOKEN_EXPIRE_DAYS * 24 * 60 * 60)

/-- Redis model: a string keyspace with TTL (`setex`/`get`/`delete`) and a
set keyspace (`sadd`/`srem`).  A kv entry is (key, value, expiry).  Values
under `refresh:{hash}` keys are user ids — Python stores `str(user.id)` and
parses it back with `UUID(...)`, a bijection elided here. -/
structure Redis where
  kv : List (String × Nat × Nat)
  sets : List (String × List String)
deriving DecidableEq

/-- `redis.get`: a key whose TTL has elapsed is gone. -/
def redisGet (r : Redis) (now : Nat) (key : String) : Option Nat :=
  match r.kv.find? (fun e => e.1 == key) with
  | none => none
  | some e => if now < e.2.2 then some e.2.1 else none

/-- `redis.setex`: write the value under the key with a fresh TTL. -/
def redisSetex (r : Redis) (now ttl : Nat) (key : String) (v : Nat) : Redis :=
  { r with kv := (key, v, now + ttl) :: r.kv.filter (fun e => !(e.1 == key)) }

/-- `redis.delete` on a kv key. -/
def redisDelete (r : Redis) (key : String) : Redis :=
  { r with kv := r.kv.filter (fun e => !(e.1 == key)) }

/-- `redis.sadd`. -/
def redisSadd (r : Redis) (key member : String) : Redis :=
  if r.sets.any (fun e => e.1 == key) then
    { r with sets := r.sets.map (fun s =>
        if s.1 == key then (s.1, if s.2.contains member then s.2 else member :: s.2)
        else s) }
  else { r with sets := (key, [member]) :: r.sets }

/-- `redis.srem`. -/
def redisSrem (r : Redis) (key member : String) : Redis :=
  { r with sets := r.sets.map (fun s =>
      if s.1 == key then (s.1, s.2.filter (fun x => !(x == member))) else s) }

/-- `redis.sismember`. -/
def redisSismember (r : Redis) (key member : String) : Bool :=
  match r.sets.find? (fun e => e.1 == key) with
  | some e => e.2.contains member
  | none => false

/-- The `f"refresh:{token_hash}"` cache key. -/
def refreshKey (h : String) : String := "refresh:" ++ h

/-- The `f"user_sessions:{user_id}"` session-set key. -/
def sessionsKey (user_id : Nat) : String := "user_sessions:" ++ toString user_id

/-- Combined mutable state of the token service: the durable store and the
cache. -/
structure AuthState where
  db : DB
  redis : Redis
deriving DecidableEq

/-- `refresh_access_token` (auth.py:141).  The current time, the fresh random
replacement token, and the new row's primary key are oracle arguments;
returns the optional (access token, new refresh token) pair and the post
state. -/
def refresh_access_token (st : AuthState) (now : Nat) (freshToken : String)
    (newId : Nat) (refresh_token : String) :
    Except Err (Option (Token × String) × AuthState) := do
  let token_hash := hash_token refresh_token
  match redisGet st.redis now (refreshKey token_hash) with
  | none => return (none, st)
  | some user_id => do
    let db_token ← scalarOneOrNone (st.db.refresh_tokens.filter
        (fun r => r.token_hash == token_hash && r.revoked_at == none))
    match db_token with
    | none =>
      let cleaned := redisSrem (redisDelete st.redis (refreshKey token_hash))
        (sessionsKey user_id) token_hash
      return (none, { st with redis := cleaned })
    | some tok =>
      if !(tok.is_valid now) then
        let cleaned := redisSrem (redisDelete st.redis (refreshKey token_hash))
          (sessionsKey user_id) token_hash
        return (none, { st with redis := cleaned })
      else do
        let user ← scalarOneOrNone (st.db.users.filter (fun u => u.id == user_id))
        match user with
        | none => return (none, st)
        | some user =>
          if !user.is_active then return (none, st)
          else
            let access_token := create_access_token user.id user.username now
            let paire := create_refresh_token freshToken now
            let new_token_hash := hash_token paire.1
            let newToks := (st.db.refresh_tokens.map (fun r =>
                if r.token_hash == token_hash && r.revoked_at == none then
                  { r with revoked_at := some now } else r))
              ++ [{ id := newId, user_id := user.id, token_hash := new_token_hash,
                    device_info := tok.device_info, created_at := now,
                    expires_at := paire.2, revoked_at := none }]
            let db2 : DB := { st.db with refresh_tokens := newToks }
            let redis2 :=
              redisSadd
                (redisSetex
                  (redisSrem (redisDelete st.redis (refreshKey token_hash))
                    (sessionsKey user_id) token_hash)
                  now (REFRESH_TOKEN_EXPIRE_DAYS * 24 * 60 * 60)
                  (refreshKey new_token_hash) user.id)
                (sessionsKey user_id) new_token_hash
            return (some (access_token, paire.1), { db := db2, redis := redis2 })

/-- `revoke_refresh_token` (auth.py:214): marks the matching record revoked
regardless of its validity state, then removes the cache entry and the
session-set membership. -/
def revoke_refresh_token (st : AuthState) (now : Nat) (refresh_token : String) :
    Except Err (Bool × AuthState) := do
  let token_hash := hash_token refresh_token
  let db_token ← scalarOneOrNone (st.db.refresh_tokens.filter
      (fun r => r.token_hash == token_hash))
  match db_token with
  | none => return (false, st)
  | some tok =>
    let newToks := st.db.refresh_tokens.map (fun r =>
      if r.token_hash == token_hash then { r with revoked_at := some now } else r)
    let db2 : DB := { st.db with refresh_tokens := newToks }
    let redis2 :=
      redisSrem (redisDelete st.redis (refreshKey token_hash))
        (sessionsKey tok.user_id) token_hash
    return (true, { db := db2, redis := redis2 })

/-- The state after the stale-cache cleanup branch of `refresh_access_token`
(auth.py:169-172): the cache entry and the session-set membership are
removed; the durable store is untouched. -/
def cleanState (st : AuthState) (t : String) (user_id : Nat) : AuthState :=
  let redis2 := redisSrem (redisDelete st.redis (refreshKey (hash_token t)))
    (sessionsKey user_id) (hash_token t)
  { st with redis := redis2 }

/-- The state after a successful rotation (auth.py:185-209): the old record
is revoked, a new record inherits the device info, the old cache entry and
session membership are removed, and the new ones are written. -/
def rotatedState (st : AuthState) (now : Nat) (freshToken : String)
    (newId : Nat) (t : String) (user_id : Nat) (tok : RefreshTokenRec)
    (user : UserRec) : AuthState :=
  let newToks := (st.db.refresh_tokens.map (fun r =>
      if r.token_hash == hash_token t && r.revoked_at == none then
        { r with revoked_at := some now } else r))
    ++ [{ id := newId, user_id := user.id,
          token_hash := hash_token freshToken,
          device_info := tok.device_info, created_at := now,
          expires_at := now + REFRESH_TOKEN_EXPIRE_DAYS * 24 * 60 * 60,
          revoked_at := none }]
  let redis2 :=
    redisSadd
      (redisSetex
        (redisSrem (redisDelete st.redis (refreshKey (hash_token t)))
          (sessionsKey user_id) (hash_token t))
        now (REFRESH_TOKEN_EXPIRE_DAYS * 24 * 60 * 60)
        (refreshKey (hash_token freshToken)) user.id)
      (sessionsKey user_id) (hash_token freshToken)
  { db := { st.db with refresh_tokens := newToks }, redis := redis2 }

/-- The state after `revoke_refresh_token` succeeds (auth.py:228-234). -/
def revokedState (st : AuthState) (now : Nat) (t : String)
    (tok : RefreshTokenRec) : AuthState :=
  let newToks := st.db.refresh_tokens.map (fun r =>
    if r.token_hash == hash_token t then { r with revoked_at := some now }
    else r)
  let redis2 := redisSrem (redisDelete st.redis (refreshKey (hash_token t)))
    (sessionsKey tok.user_id) (hash_token t)
  { db := { st.db with refresh_tokens := newToks }, redis := redis2 }

/-- Concrete login-capable user for the token-service witnesses. -/
def tokenUser : UserRec :=
  { id := 1, username := "u", password_hash := "h", is_active := true }

/-- Concrete live refresh-token record (hash of the raw token "t"). -/
def liveToken : RefreshTokenRec :=
  { id := 1
    user_id := 1
    token_hash := hash_token "t"
    device_info := some "d"
    created_at := 0
    expires_at := 1000
    revoked_at := none }

/-- Concrete state where token "t" is live: cached, durably recorded,
unrevoked, unexpired, and its user active. -/
def liveAuthState : AuthState :=
  { db := { users := [tokenUser]
            roles := []
            user_roles := []
            divisions := []
            division_members := []
            teams := []
            team_members := []
            refresh_tokens := [liveToken] }
    redis := { kv := [(refreshKey (hash_token "t"), 1, 1000)]
               sets := [(sessionsKey 1, [hash_token "t"])] } }

/-- The same state with the owning user deactivated. -/
def inactiveAuthState : AuthState :=
  { liveAuthState with db := { liveAuthState.db with
      users := [{ tokenUser with is_active := false }] } }

/-! ## Team handlers (app/api/teams.py) -/

/-- `TeamCreate` schema (app/schemas/team.py). -/
structure TeamCreate where
  name : String
  description : Option String
  division_id : Option Nat
  external_org : Option String
  responsible_id : Option Nat
deriving DecidableEq

/-- `ProxyTeamCreate` schema (app/schemas/team.py). -/
structure ProxyTeamCreate where
  name : String
  external_org : String
  description : Option String
deriving DecidableEq

/-- `TeamPromote` schema (app/schemas/team.py): `responsible_id` is a
required field. -/
structure TeamPromote where
  responsible_id : Nat
  division_id : Option Nat
deriving DecidableEq

/-- `TeamUpdate` schema with pydantic `exclude_unset` semantics: the outer
`Option` is "was the field present in the request"; for the nullable
columns the inner `Option` is the (possibly null) value.  An explicitly
null `name` is excluded: the column is NOT NULL. -/
structure TeamUpdate where
  name : Option String
  description : Option (Option String)
  division_id : Option (Option Nat)
  responsible_id : Option (Option Nat)
deriving DecidableEq

/-- The `if data.division_id is not None: ... 403` permission gate shared by
`create_team` (teams.py:88) and `promote_team` (teams.py:290). -/
def divisionGate (db : DB) (current_user : Nat) : Option Nat → Except Err Unit
  | none => .ok ()
  | some d => do
    let allowed ← can_manage_division db current_user d
    if !allowed then .error (.http 403) else .ok ()

/-- The row built and inserted by `create_team` (teams.py:95): `promoted_at`
is set iff `responsible_id` is given ("If responsible is set, it's not a
proxy team"). -/
def createTeamInsert (db : DB) (data : TeamCreate) (now newId : Nat) :
    TeamRec × DB :=
  let team : TeamRec :=
    { id := newId
      name := data.name
      description := data.description
      division_id := data.division_id
      external_org := data.external_org
      responsible_id := data.responsible_id
      promoted_at := match data.responsible_id with
                     | some _ => some now
                     | none => none }
  (team, { db with teams := db.teams ++ [team] })

/-- `create_team` handler (teams.py:78). -/
def create_team (db : DB) (current_user : Nat) (data : TeamCreate)
    (now newId : Nat) : Except Err (TeamRec × DB) := do
  divisionGate db current_user data.division_id
  return createTeamInsert db data now newId

/-- `create_proxy_team` handler (teams.py:130): division, responsible and
hence `promoted_at` are all unset. -/
def create_proxy_team (db : DB) (data : ProxyTeamCreate) (newId : Nat) :
    TeamRec × DB :=
  let team : TeamRec :=
    { id := newId
      name := data.name
      description := data.description
      division_id := none
      external_org := some data.external_org
      responsible_id := none
      promoted_at := none }
  (team, { db with teams := db.teams ++ [team] })

/-- The `for field, value in update_data.items(): setattr(team, field, value)`
loop of `update_team` (teams.py:238) over the fields present in the
request. -/
def applyTeamUpdate (t : TeamRec) (data : TeamUpdate) : TeamRec :=
  let t1 := match data.name with
            | some v => { t with name := v }
            | none => t
  let t2 := match data.description with
            | some v => { t1 with description := v }
            | none => t1
  let t3 := match data.division_id with
            | some v => { t2 with division_id := v }
            | none => t2
  match data.responsible_id with
  | some v => { t3 with responsible_id := v }
  | none => t3

/-- `update_team` handler (teams.py:215): gated by `TeamPermission("manage")`
(dependencies/permissions.py:119), 404 if missing, then applies the present
fields and commits. -/
def update_team (db : DB) (current_user team_id : Nat) (data : TeamUpdate) :
    Except Err (TeamRec × DB) := do
  let allowed ← can_manage_team db current_user team_id
  if !allowed then .error (.http 403)
  else do
    let team ← scalarOneOrNone (db.teams.filter (fun t => t.id == team_id))
    match team with
    | none => .error (.http 404)
    | some t =>
      .ok (applyTeamUpdate t data,
        { db with teams := db.teams.map (fun x =>
            if x.id == team_id then applyTeamUpdate x data else x) })

/-- `promote_team` handler (teams.py:263): 404 if missing, 400 if the team
already has a responsible person, permission gate on the target division,
then sets responsible, division and `promoted_at = now`. -/
def promote_team (db : DB) (current_user team_id : Nat) (data : TeamPromote)
    (now : Nat) : Except Err (TeamRec × DB) := do
  let team ← scalarOneOrNone (db.teams.filter (fun t => t.id == team_id))
  match team with
  | none => .error (.http 404)
  | some t =>
    if !t.is_proxy then .error (.http 400)
    else do
      divisionGate db current_user data.division_id
      let upd := fun (x : TeamRec) =>
        { x with responsible_id := some data.responsible_id
                 division_id := data.division_id
                 promoted_at := some now }
      .ok (upd t, { db with teams := db.teams.map (fun x =>
          if x.id == team_id then upd x else x) })

/-! ## Spec-level characterisations used by the theorems -/

/-- Lookup of a division by primary key: with unique ids this is the single
candidate row of `findDivisionRows`. -/
def findDivision (db : DB) (i : Nat) : Option DivisionRec :=
  db.divisions.find? (fun d => d.id == i)

/-- The nearest-first ancestor chain: `isAncestorChain db cur l` holds iff
`l` is exactly the sequence of parent ids obtained from `cur` by following
`parent_id` pointers, stopping at a division with a null parent or at a
dangling parent reference (an id whose record is missing; the dangling id
itself is the last ancestor found). -/
def isAncestorChain (db : DB) : Nat → List Nat → Prop
  | cur, [] =>
    match findDivision db cur with
    | none => True
    | some d => d.parent_id = none
  | cur, p :: rest =>
    match findDivision db cur with
    | none => False
    | some d => d.parent_id = some p ∧ isAncestorChain db p rest

/-- A certificate that the division store's parent pointers are acyclic:
`rank` strictly decreases from child to parent and is bounded by the number
of divisions.  Every acyclic finite store admits such a certificate (take
for `rank` the length of the parent chain). -/
def rankOk (db : DB) (rank : Nat → Nat) : Bool :=
  db.divisions.all (fun d =>
    (match d.parent_id with
     | none => true
     | some p => decide (rank p < rank d.id)) &&
    decide (rank d.id ≤ db.divisions.length))

/-- At most one `DivisionMember` row per (person, division) pair — the
uniqueness the given schema does not enforce. -/
def divisionMembersUnique (db : DB) : Prop :=
  (db.division_members.map (fun m => (m.person_id, m.division_id))).Nodup

/-- At most one `TeamMember` row per (person, team) pair. -/
def teamMembersUnique (db : DB) : Prop :=
  (db.team_members.map (fun m => (m.person_id, m.team_id))).Nodup

/-- The `promoted_at`/`responsible_id` invariant of §3 of the spec: a team
has a promotion timestamp iff a responsible person is assigned. -/
def TeamRec.promotedInv (t : TeamRec) : Prop :=
  t.promoted_at.isSome ↔ t.responsible_id.isSome

/-! ## Concrete stores used for witnesses and counterexamples -/

/-- A store with a duplicate (person, division) membership row for
(person 1, division 10) — permitted by the schema, which has no uniqueness
constraint on division_members. -/
def dupMembershipDB : DB :=
  { users := [{ id := 1, username := "u", password_hash := "h", is_active := true }]
    roles := []
    user_roles := []
    divisions := [{ id := 10, parent_id := none }]
    division_members := [⟨10, 1, .member⟩, ⟨10, 1, .member⟩]
    teams := []
    team_members := []
    refresh_tokens := [] }

/-- Concrete store with the division chain 100→101→102→103 and user 1
holding an `admin` membership on the root division 100. -/
def chainAdminDB : DB :=
  { users := [{ id := 1, username := "u", password_hash := "h", is_active := true }]
    roles := []
    user_roles := []
    divisions := [⟨100, none⟩, ⟨101, some 100⟩, ⟨102, some 101⟩, ⟨103, some 102⟩]
    division_members := [⟨100, 1, .admin⟩]
    teams := []
    team_members := []
    refresh_tokens := [] }

/-- The same chain store with a `member` role on the root instead. -/
def chainMemberDB : DB :=
  { chainAdminDB with division_members := [⟨100, 1, .member⟩] }

/-- A store with one seeded role, for exercising role assignment. -/
def roleDB : DB :=
  { users := [{ id := 1, username := "u", password_hash := "h", is_active := true }]
    roles := [{ id := 50, name := "admin" }]
    user_roles := []
    divisions := []
    division_members := []
    teams := []
    team_members := []
    refresh_tokens := [] }

/-- Store with a superuser (user 1 holding role 60) and a proxy team 5. -/
def proxyTeamDB : DB :=
  { users := [{ id := 1, username := "u", password_hash := "h", is_active := true }]
    roles := [{ id := 60, name := "superuser" }]
    user_roles := [⟨1, 60⟩]
    divisions := []
    division_members := []
    teams := [{ id := 5, name := "T", description := none, division_id := none,
                external_org := some "X", responsible_id := none,
                promoted_at := none }]
    team_members := []
    refresh_tokens := [] }

/-- A PATCH body that sets only `responsible_id` (to person 2). -/
def setResponsibleUpdate : TeamUpdate :=
  { name := none
    description := none
    division_id := none
    responsible_id := some (some 2) }

/-- A creation request with a responsible person and no division. -/
def createWithResponsible : TeamCreate :=
  { name := "T2"
    description := none
    division_id := none
    external_org := none
    responsible_id := some 3 }

/-- A full (already promoted) team record. -/
def fullTeam : TeamRec :=
  { id := 6
    name := "F"
    description := none
    division_id := none
    external_org := none
    responsible_id := some 9
    promoted_at := some 1 }

/-- Store with a full (already promoted) team 6. -/
def fullTeamDB : DB :=
  { proxyTeamDB with teams := [fullTeam] }

/-- A promotion request assigning person 4 and no division. -/
def promoteToFour : TeamPromote :=
  { responsible_id := 4
    division_id := none }

/-! ## Generic query lemmas -/

@[simp] lemma okBind {α β : Type} (a : α) (f : α → Except Err β) :
    (Except.ok a >>= f : Except Err β) = f a := rfl

@[simp] lemma errBind {α β : Type} (e : Err) (f : α → Except Err β) :
    (Except.error e >>= f : Except Err β) = .error e := rfl

@[simp] lemma pureOk {α : Type} (a : α) : (pure a : Except Err α) = .ok a := rfl

lemma flatMap_eq_nil_of {α β : Type} {l : List α} {f : α → List β}
    (h : ∀ a ∈ l, f a = []) : l.flatMap f = [] := by
  induction l with
  | nil => rfl
  | cons b t ih =>
    rw [List.flatMap_cons, h b (List.mem_cons_self b t),
      ih fun a ha => h a (List.mem_cons_of_mem b ha)]
    rfl

lemma filter_eq_nil_of {α : Type} {l : List α} {p : α → Bool}
    (h : ∀ a ∈ l, p a = false) : l.filter p = [] := by
  induction l with
  | nil => rfl
  | cons b t ih =>
    rw [List.filter_cons, h b (List.mem_cons_self b t)]
    exact ih fun a ha => h a (List.mem_cons_of_mem b ha)

lemma filter_eq_single_of_nodup_key {α β : Type} (f : α → β) (p : α → Bool)
    (l : List α) (hnd : (l.map f).Nodup) (a : α) (ha : a ∈ l) (hpa : p a = true)
    (himp : ∀ x ∈ l, p x = true → f x = f a) : l.filter p = [a] := by
  induction l with
  | nil => cases ha
  | cons b t ih =>
    rw [List.map_cons, List.nodup_cons] at hnd
    rcases List.mem_cons.mp ha with hab | hat
    · subst hab
      rw [List.filter_cons, hpa]
      have ht : t.filter p = [] := filter_eq_nil_of fun x hx => by
        by_contra hpx
        have hfx : f x = f a := himp x (List.mem_cons_of_mem a hx)
          (Bool.of_not_eq_false hpx)
        exact hnd.1 (hfx ▸ List.mem_map_of_mem f hx)
      rw [ht]
      simp
    · have hpb : p b = false := by
        by_contra hpb
        have hfb : f b = f a := himp b (List.mem_cons_self b t)
          (Bool.of_not_eq_false hpb)
        exact hnd.1 (hfb ▸ List.mem_map_of_mem f hat)
      rw [List.filter_cons, hpb]
      exact ih hnd.2 hat fun x hx hpx => himp x (List.mem_cons_of_mem b hx) hpx

lemma length_filter_le_one_of_nodup_key {α β : Type} (f : α → β) (p : α → Bool)
    (l : List α) (hnd : (l.map f).Nodup)
    (himp : ∀ x ∈ l, p x = true → ∀ y ∈ l, p y = true → f x = f y) :
    (l.filter p).length ≤ 1 := by
  induction l with
  | nil => simp
  | cons b t ih =>
    rw [List.map_cons, List.nodup_cons] at hnd
    rw [List.filter_cons]
    by_cases hpb : p b = true
    · rw [hpb]
      have ht : t.filter p = [] := filter_eq_nil_of fun x hx => by
        by_contra hpx
        have hfx : f x = f b := himp x (List.mem_cons_of_mem b hx)
          (Bool.of_not_eq_false hpx) b (List.mem_cons_self b t) hpb
        exact hnd.1 (hfx ▸ List.mem_map_of_mem f hx)
      rw [ht]
      simp
    · rw [Bool.of_not_eq_true hpb]
      exact ih hnd.2 fun x hx hpx y hy hpy =>
        himp x (List.mem_cons_of_mem b hx) hpx y (List.mem_cons_of_mem b hy) hpy

lemma scalarOneOrNone_of_short {α : Type} (l : List α) (h : l.length ≤ 1) :
    ∃ o, scalarOneOrNone l = .ok o := by
  match l with
  | [] => exact ⟨none, rfl⟩
  | [a] => exact ⟨some a, rfl⟩
  | a :: b :: t => simp at h

lemma scalarOneOrNone_filter_key {α β : Type} (f : α → β) [DecidableEq β] (l : List α)
    (hnd : (l.map f).Nodup) (k : β) :
    scalarOneOrNone (l.filter (fun a => f a == k)) =
      .ok (l.find? (fun a => f a == k)) := by
  induction l with
  | nil => rfl
  | cons b t ih =>
    rw [List.map_cons, List.nodup_cons] at hnd
    by_cases hb : f b = k
    · have hpb : (f b == k) = true := beq_iff_eq.mpr hb
      have ht : t.filter (fun a => f a == k) = [] := filter_eq_nil_of fun x hx => by
        by_contra hpx
        have hfx : f x = k := beq_iff_eq.mp (Bool.of_not_eq_false hpx)
        exact hnd.1 ((hfx.trans hb.symm) ▸ List.mem_map_of_mem f hx)
      rw [List.filter_cons, hpb]
      have hfind : (b :: t).find? (fun a => f a == k) = some b :=
        List.find?_cons_of_pos (p := fun a => f a == k) t (by exact hpb)
      simp only [if_true, ht, hfind]
      rfl
    · have hpb : (f b == k) = false := beq_eq_false_iff_ne.mpr hb
      rw [List.filter_cons, hpb, List.find?_cons_of_neg t (by simp [hpb])]
      exact ih hnd.2

lemma find?_key_of_mem {α β : Type} (f : α → β) [DecidableEq β] (l : List α)
    (hnd : (l.map f).Nodup) (a : α) (ha : a ∈ l) :
    l.find? (fun x => f x == f a) = some a := by
  have h1 := scalarOneOrNone_filter_key f l hnd (f a)
  rw [filter_eq_single_of_nodup_key f (fun x => f x == f a) l hnd a ha
    (beq_iff_eq.mpr rfl) (fun x _ hx => beq_iff_eq.mp hx)] at h1
  exact (Except.ok.inj h1).symm

lemma filter_and_split {α : Type} (l : List α) (p q : α → Bool) :
    l.filter (fun a => p a && q a) = (l.filter p).filter q := by
  induction l with
  | nil => rfl
  | cons b t ih =>
    by_cases hp : p b <;> by_cases hq : q b <;>
      simp [List.filter_cons, hp, hq, ih]

/-! ## String, hash and cache-key lemmas -/

lemma string_data_inj {s t : String} (h : s.data = t.data) : s = t := by
  cases s
  cases t
  simp_all

lemma hash_token_inj {t1 t2 : String} (h : hash_token t1 = hash_token t2) :
    t1 = t2 := by
  have hd : '#' :: t1.data = '#' :: t2.data := congrArg String.data h
  exact string_data_inj (List.cons.inj hd).2

lemma appendKey_inj {p h1 h2 : String} (h : p ++ h1 = p ++ h2) : h1 = h2 := by
  have hd : p.data ++ h1.data = p.data ++ h2.data := by
    rw [← String.data_append, ← String.data_append, h]
  exact string_data_inj (List.append_inj_right hd rfl)

lemma refreshKey_inj {h1 h2 : String} (h : refreshKey h1 = refreshKey h2) :
    h1 = h2 :=
  appendKey_inj h

lemma isPrefixOf_append_self (l t : List Char) : l.isPrefixOf (l ++ t) = true := by
  simp

lemma hash_password_inj {p1 p2 : String} (h : hash_password p1 = hash_password p2) :
    p1 = p2 := by
  have hd : argonTag ++ p1.data = argonTag ++ p2.data := congrArg String.data h
  exact string_data_inj (List.append_inj_right hd rfl)

/-! ## Redis lemmas -/

lemma redisGet_srem (r : Redis) (now : Nat) (k s m : String) :
    redisGet (redisSrem r s m) now k = redisGet r now k := rfl

lemma redisGet_sadd (r : Redis) (now : Nat) (k s m : String) :
    redisGet (redisSadd r s m) now k = redisGet r now k := by
  unfold redisSadd
  split <;> rfl

lemma find?_filter_out_key {α : Type} (l : List (String × α)) (k k' : String)
    (hne : k' ≠ k) :
    (l.filter (fun e => !(e.1 == k))).find? (fun e => e.1 == k') =
      l.find? (fun e => e.1 == k') := by
  induction l with
  | nil => rfl
  | cons e t ih =>
    by_cases hek : e.1 = k
    · have h2 : (e.1 == k') = false := by
        rw [hek]
        exact beq_eq_false_iff_ne.mpr (Ne.symm hne)
      simp [List.filter_cons, hek, h2, ih]
      rw [List.find?_cons_of_neg t (by simp [h2])]
    · by_cases he' : e.1 = k'
      · simp [List.filter_cons, hek, he', hne]
      · simp [List.filter_cons, hek, he', ih]

lemma redisGet_delete_self (r : Redis) (now : Nat) (k : String) :
    redisGet (redisDelete r k) now k = none := by
  unfold redisGet redisDelete
  have h : ((r.kv.filter (fun e => !(e.1 == k))).find? (fun e => e.1 == k)) = none := by
    rw [List.find?_eq_none]
    intro x hx
    have hfx := (List.mem_filter.mp hx).2
    simp only [Bool.not_eq_true'] at hfx
    simp [hfx]
  rw [h]

lemma redisGet_delete_other (r : Redis) (now : Nat) (k k' : String) (hne : k' ≠ k) :
    redisGet (redisDelete r k) now k' = redisGet r now k' := by
  unfold redisGet redisDelete
  rw [find?_filter_out_key r.kv k k' hne]

lemma redisGet_setex_self (r : Redis) (now ttl : Nat) (k : String) (v : Nat)
    (now2 : Nat) :
    redisGet (redisSetex r now ttl k v) now2 k =
      if now2 < now + ttl then some v else none := by
  simp [redisGet, redisSetex]

lemma redisGet_setex_other (r : Redis) (now ttl : Nat) (k : String) (v : Nat)
    (now2 : Nat) (k' : String) (hne : k' ≠ k) :
    redisGet (redisSetex r now ttl k v) now2 k' = redisGet r now2 k' := by
  have hk : (k == k') = false := beq_eq_false_iff_ne.mpr (Ne.symm hne)
  simp only [redisGet, redisSetex]
  rw [List.find?_cons_of_neg (p := fun (e : String × Nat × Nat) => e.1 == k') _
    (by simp [hk]), find?_filter_out_key r.kv k k' hne]

lemma sets_delete (r : Redis) (k : String) : (redisDelete r k).sets = r.sets := rfl

lemma sismember_srem_self (r : Redis) (k m : String) :
    redisSismember (redisSrem r k m) k m = false := by
  unfold redisSismember redisSrem
  induction r.sets with
  | nil => rfl
  | cons e t ih =>
    by_cases he : e.1 = k
    · simp only [List.map_cons, beq_iff_eq.mpr he, if_true]
      rw [List.find?_cons_of_pos (p := fun (e : String × List String) => e.1 == k) _
        (by simp [he])]
      simp [List.mem_filter]
    · simp only [List.map_cons, beq_eq_false_iff_ne.mpr he, if_false]
      rw [List.find?_cons_of_neg (p := fun (e : String × List String) => e.1 == k) _
        (by simp [he])]
      exact ih

/-! ## Permission-engine evaluation lemmas -/

lemma globalRoleRows_eq_nil (db : DB) (uid : Nat) (n : String)
    (h : ∀ ur ∈ db.user_roles, ur.user_id ≠ uid) :
    globalRoleRows db uid n = [] :=
  flatMap_eq_nil_of fun ur hur => by
    simp [beq_eq_false_iff_ne.mpr (h ur hur)]

lemma has_global_role_no_rows (db : DB) (uid : Nat) (n : String)
    (h : ∀ ur ∈ db.user_roles, ur.user_id ≠ uid) :
    has_global_role db uid n = .ok false := by
  unfold has_global_role
  rw [globalRoleRows_eq_nil db uid n h]
  rfl

lemma has_elevated_no_rows (db : DB) (uid : Nat)
    (h : ∀ ur ∈ db.user_roles, ur.user_id ≠ uid) :
    has_elevated_privileges db uid = .ok false := by
  unfold has_elevated_privileges is_superuser is_admin
  rw [has_global_role_no_rows db uid _ h]
  show has_global_role db uid "admin" = .ok false
  exact has_global_role_no_rows db uid _ h

lemma flatMap_length_le_one {α β γ : Type} (g : α → γ) (l : List α)
    (f : α → List β) (hnd : (l.map g).Nodup)
    (hone : ∀ a, (f a).length ≤ 1)
    (hcoh : ∀ a b, f a ≠ [] → f b ≠ [] → g a = g b) :
    (l.flatMap f).length ≤ 1 := by
  induction l with
  | nil => simp
  | cons a t ih =>
    rw [List.map_cons, List.nodup_cons] at hnd
    rw [List.flatMap_cons, List.length_append]
    by_cases hfa : f a = []
    · rw [hfa]
      simpa using ih hnd.2
    · have ht : t.flatMap f = [] := flatMap_eq_nil_of fun b hb => by
        by_contra hfb
        exact hnd.1 (by
          rw [hcoh a b hfa hfb]
          exact List.mem_map_of_mem g hb)
      rw [ht]
      simpa using hone a

lemma globalRoleRows_inner_ne_nil {db : DB} {uid : Nat} {n : String}
    {a : UserRoleRec}
    (hfa : (if a.user_id == uid then
        (db.roles.filter (fun r => r.id == a.role_id && r.name == n)).map
          (fun _ => a)
      else []) ≠ []) :
    a.user_id = uid ∧ ∃ r ∈ db.roles, r.id = a.role_id ∧ r.name = n := by
  by_cases ha : a.user_id = uid
  · refine ⟨ha, ?_⟩
    rw [beq_iff_eq.mpr ha, if_pos rfl] at hfa
    cases hfil : db.roles.filter (fun r => r.id == a.role_id && r.name == n) with
    | nil => rw [hfil] at hfa; simp at hfa
    | cons r rest =>
      have hr := List.mem_filter.mp (hfil ▸ List.mem_cons_self r rest)
      simp only [Bool.and_eq_true, beq_iff_eq] at hr
      exact ⟨r, hr.1, hr.2.1, hr.2.2⟩
  · rw [beq_eq_false_iff_ne.mpr ha] at hfa
    simp at hfa

lemma globalRoleRows_length_le_one (db : DB) (hwf : db.wf) (uid : Nat)
    (n : String) : (globalRoleRows db uid n).length ≤ 1 := by
  apply flatMap_length_le_one (fun ur => (ur.user_id, ur.role_id))
    db.user_roles _ hwf.user_roles_nodup
  · intro a
    by_cases ha : a.user_id = uid
    · rw [beq_iff_eq.mpr ha, if_pos rfl, List.length_map]
      apply length_filter_le_one_of_nodup_key (fun r => r.id) _ db.roles
        hwf.roles_id_nodup
      intro x hx hpx y hy hpy
      simp only [Bool.and_eq_true, beq_iff_eq] at hpx hpy
      rw [hpx.1, hpy.1]
    · rw [beq_eq_false_iff_ne.mpr ha]
      simp
  · intro a b hfa hfb
    rcases globalRoleRows_inner_ne_nil hfa with ⟨hau, r, hrmem, hrid, hrn⟩
    rcases globalRoleRows_inner_ne_nil hfb with ⟨hbu, r', hrmem', hrid', hrn'⟩
    have hrr : r = r' :=
      List.inj_on_of_nodup_map hwf.roles_name_nodup hrmem hrmem'
        (hrn.trans hrn'.symm)
    have : a.role_id = b.role_id := by rw [← hrid, hrr, hrid']
    simp [hau, hbu, this]

lemma has_global_role_isOk (db : DB) (hwf : db.wf) (uid : Nat) (n : String) :
    ∃ b, has_global_role db uid n = .ok b := by
  rcases scalarOneOrNone_of_short _ (globalRoleRows_length_le_one db hwf uid n)
    with ⟨o, ho⟩
  refine ⟨o.isSome, ?_⟩
  unfold has_global_role
  rw [ho]
  rfl

lemma has_elevated_isOk (db : DB) (hwf : db.wf) (uid : Nat) :
    ∃ b, has_elevated_privileges db uid = .ok b := by
  rcases has_global_role_isOk db hwf uid "superuser" with ⟨b1, h1⟩
  rcases has_global_role_isOk db hwf uid "admin" with ⟨b2, h2⟩
  unfold has_elevated_privileges is_superuser is_admin
  rw [h1, okBind]
  cases b1
  · exact ⟨b2, h2⟩
  · exact ⟨true, rfl⟩

lemma scalarOneOrNone_users (db : DB) (hwf : db.wf) (uid : Nat) :
    scalarOneOrNone (db.users.filter (fun u => u.id == uid)) =
      .ok (db.users.find? (fun u => u.id == uid)) :=
  scalarOneOrNone_filter_key (fun u => u.id) db.users hwf.users_nodup uid

lemma find?_users_of_mem (db : DB) (hwf : db.wf) (u : UserRec)
    (hu : u ∈ db.users) :
    db.users.find? (fun x => x.id == u.id) = some u :=
  find?_key_of_mem (fun x => x.id) db.users hwf.users_nodup u hu

lemma scalarOneOrNone_findDivision (db : DB) (hwf : db.wf) (i : Nat) :
    scalarOneOrNone (findDivisionRows db i) = .ok (findDivision db i) := by
  unfold findDivisionRows findDivision
  exact scalarOneOrNone_filter_key (fun d => d.id) db.divisions
    hwf.divisions_nodup i

lemma scalarOneOrNone_teams (db : DB) (hwf : db.wf) (i : Nat) :
    scalarOneOrNone (db.teams.filter (fun t => t.id == i)) =
      .ok (db.teams.find? (fun t => t.id == i)) :=
  scalarOneOrNone_filter_key (fun t => t.id) db.teams hwf.teams_nodup i

lemma get_division_role_eval (db : DB) (hwf : db.wf) {u : UserRec}
    (hu : u ∈ db.users) (did : Nat) {ms : List DivisionMemberRec}
    (hms : db.division_members.filter
      (fun m => m.person_id == u.id && m.division_id == did) = ms) :
    get_division_role db u.id did =
      scalarOneOrNone ms >>= fun membership => pure (membership.map (·.role)) := by
  simp only [get_division_role, scalarOneOrNone_users db hwf u.id,
    find?_users_of_mem db hwf u hu, okBind, hms]

lemma get_division_role_of_nil (db : DB) (hwf : db.wf) {u : UserRec}
    (hu : u ∈ db.users) (did : Nat)
    (hms : db.division_members.filter
      (fun m => m.person_id == u.id && m.division_id == did) = []) :
    get_division_role db u.id did = .ok none := by
  rw [get_division_role_eval db hwf hu did hms]
  rfl

lemma get_division_role_of_single (db : DB) (hwf : db.wf) {u : UserRec}
    (hu : u ∈ db.users) (did : Nat) {m : DivisionMemberRec}
    (hms : db.division_members.filter
      (fun m => m.person_id == u.id && m.division_id == did) = [m]) :
    get_division_role db u.id did = .ok (some m.role) := by
  rw [get_division_role_eval db hwf hu did hms]
  rfl

/-! ## Hierarchy-resolver lemmas -/

lemma ancestorsFuel_succ (db : DB) (n cur : Nat) :
    ancestorsFuel db (n + 1) cur =
      (scalarOneOrNone (findDivisionRows db cur) >>= fun division =>
        match division with
        | none => pure []
        | some d =>
          match d.parent_id with
          | none => pure []
          | some p => ancestorsFuel db n p >>= fun rest => pure (p :: rest)) :=
  rfl

lemma ancestorsFuel_succ_eq (db : DB) (hwf : db.wf) (n cur : Nat) :
    ancestorsFuel db (n + 1) cur =
      (match findDivision db cur with
       | none => .ok []
       | some d =>
         match d.parent_id with
         | none => .ok []
         | some p => ancestorsFuel db n p >>= fun rest => pure (p :: rest)) := by
  rw [ancestorsFuel_succ, scalarOneOrNone_findDivision db hwf]
  cases findDivision db cur with
  | none => rfl
  | some d =>
    cases d.parent_id with
    | none => rfl
    | some p => rfl

lemma rankOk_parent {db : DB} {rank : Nat → Nat} (h : rankOk db rank = true)
    {d : DivisionRec} (hd : d ∈ db.divisions) {p : Nat}
    (hp : d.parent_id = some p) : rank p < rank d.id := by
  have hall := (List.all_eq_true.mp h) d hd
  rw [hp] at hall
  simp only [Bool.and_eq_true, decide_eq_true_eq] at hall
  exact hall.1

lemma rankOk_bound {db : DB} {rank : Nat → Nat} (h : rankOk db rank = true)
    {d : DivisionRec} (hd : d ∈ db.divisions) :
    rank d.id ≤ db.divisions.length := by
  have hall := (List.all_eq_true.mp h) d hd
  simp only [Bool.and_eq_true, decide_eq_true_eq] at hall
  exact hall.2

lemma findDivision_id {db : DB} {i : Nat} {d : DivisionRec}
    (h : findDivision db i = some d) : d.id = i := by
  have h' : db.divisions.find? (fun d => d.id == i) = some d := h
  have hpa := List.find?_some h'
  simpa using hpa

lemma findDivision_mem {db : DB} {i : Nat} {d : DivisionRec}
    (h : findDivision db i = some d) : d ∈ db.divisions := by
  have h' : db.divisions.find? (fun d => d.id == i) = some d := h
  exact List.mem_of_find?_eq_some h'

lemma ancestorsFuel_missing (db : DB) (hwf : db.wf) {x : Nat}
    (hfd : findDivision db x = none) (n : Nat) :
    ancestorsFuel db (n + 1) x = .ok [] := by
  rw [ancestorsFuel_succ_eq db hwf, hfd]

lemma ancestorsFuel_root (db : DB) (hwf : db.wf) {x : Nat} {d : DivisionRec}
    (hd : findDivision db x = some d) (hp : d.parent_id = none) (n : Nat) :
    ancestorsFuel db (n + 1) x = .ok [] := by
  rw [ancestorsFuel_succ_eq db hwf, hd]
  simp [hp]

lemma ancestorsFuel_parent_eq (db : DB) (hwf : db.wf) {x p : Nat}
    {d : DivisionRec} (hd : findDivision db x = some d)
    (hp : d.parent_id = some p) (n : Nat) :
    ancestorsFuel db (n + 1) x =
      ancestorsFuel db n p >>= fun rest => pure (p :: rest) := by
  rw [ancestorsFuel_succ_eq db hwf, hd]
  simp [hp]

lemma ancestorsFuel_step (db : DB) (hwf : db.wf) {x p : Nat} {d : DivisionRec}
    (hd : findDivision db x = some d) (hp : d.parent_id = some p) (n : Nat)
    {l : List Nat} (hrec : ancestorsFuel db n p = .ok l) :
    ancestorsFuel db (n + 1) x = .ok (p :: l) := by
  rw [ancestorsFuel_parent_eq db hwf hd hp, hrec, okBind]
  rfl

lemma ancestorsFuel_mono (db : DB) (hwf : db.wf) :
    ∀ fuel cur l, ancestorsFuel db fuel cur = .ok l →
      ∀ fuel', fuel ≤ fuel' → ancestorsFuel db fuel' cur = .ok l := by
  intro fuel
  induction fuel with
  | zero =>
    intro cur l h
    exact absurd h (by simp [ancestorsFuel])
  | succ n ih =>
    intro cur l h fuel' hle
    obtain ⟨m, rfl⟩ : ∃ m, fuel' = m + 1 := ⟨fuel' - 1, by omega⟩
    cases hfd : findDivision db cur with
    | none =>
      rw [ancestorsFuel_missing db hwf hfd n] at h
      rw [ancestorsFuel_missing db hwf hfd m, ← Except.ok.inj h]
    | some d =>
      cases hpd : d.parent_id with
      | none =>
        rw [ancestorsFuel_root db hwf hfd hpd n] at h
        rw [ancestorsFuel_root db hwf hfd hpd m, ← Except.ok.inj h]
      | some p =>
        rw [ancestorsFuel_parent_eq db hwf hfd hpd n] at h
        rw [ancestorsFuel_parent_eq db hwf hfd hpd m]
        cases hrec : ancestorsFuel db n p with
        | error e =>
          rw [hrec, errBind] at h
          exact Except.noConfusion h
        | ok rest =>
          rw [hrec, okBind] at h
          rw [ih p rest hrec m (by omega), okBind]
          exact h

lemma ancestorsFuel_ok (db : DB) (hwf : db.wf) (rank : Nat → Nat)
    (hrk : rankOk db rank = true) :
    ∀ fuel cur, 0 < fuel →
      (∀ d ∈ db.divisions, d.id = cur → rank d.id < fuel) →
      ∃ l, ancestorsFuel db fuel cur = .ok l ∧ isAncestorChain db cur l := by
  intro fuel
  induction fuel with
  | zero =>
    intro cur h0 _
    exact absurd h0 (by simp)
  | succ n ih =>
    intro cur _ hcur
    cases hfd : findDivision db cur with
    | none =>
      exact ⟨[], ancestorsFuel_missing db hwf hfd n, by simp [isAncestorChain, hfd]⟩
    | some d =>
      have hdm := findDivision_mem hfd
      have hdid := findDivision_id hfd
      cases hpd : d.parent_id with
      | none =>
        exact ⟨[], ancestorsFuel_root db hwf hfd hpd n,
          by simp [isAncestorChain, hfd, hpd]⟩
      | some p =>
        have hlt : rank p < rank d.id := rankOk_parent hrk hdm hpd
        have hdn : rank d.id < n + 1 := hcur d hdm hdid
        have hpn : rank p < n := by omega
        have h0n : 0 < n := by omega
        rcases ih p h0n (fun d' hd' hid' => by rw [hid']; exact hpn)
          with ⟨l, hl, hch⟩
        refine ⟨p :: l, ancestorsFuel_step db hwf hfd hpd n hl, ?_⟩
        simp only [isAncestorChain, hfd]
        exact ⟨hpd, hch⟩

lemma get_division_ancestors_ok (db : DB) (hwf : db.wf) (rank : Nat → Nat)
    (hrk : rankOk db rank = true) (i : Nat) :
    ∃ l, get_division_ancestors db i = .ok l ∧ isAncestorChain db i l := by
  apply ancestorsFuel_ok db hwf rank hrk _ i (Nat.succ_pos _)
  intro d hd _
  exact Nat.lt_succ_of_le (rankOk_bound hrk hd)

/-! ## Exception-freedom of the permission predicates -/

lemma divisionMembers_filter_short (db : DB) (hdm : divisionMembersUnique db)
    (uid did : Nat) :
    (db.division_members.filter
      (fun m => m.person_id == uid && m.division_id == did)).length ≤ 1 := by
  have hdm' : (db.division_members.map
      (fun m => (m.person_id, m.division_id))).Nodup := hdm
  apply length_filter_le_one_of_nodup_key
    (fun m => (m.person_id, m.division_id)) _ db.division_members hdm'
  intro x _ hpx y _ hpy
  simp only [Bool.and_eq_true, beq_iff_eq] at hpx hpy
  rw [hpx.1, hpx.2, hpy.1, hpy.2]

lemma teamMembers_filter_short (db : DB) (htm : teamMembersUnique db)
    (uid tid : Nat) :
    (db.team_members.filter
      (fun m => m.person_id == uid && m.team_id == tid)).length ≤ 1 := by
  have htm' : (db.team_members.map
      (fun m => (m.person_id, m.team_id))).Nodup := htm
  apply length_filter_le_one_of_nodup_key
    (fun m => (m.person_id, m.team_id)) _ db.team_members htm'
  intro x _ hpx y _ hpy
  simp only [Bool.and_eq_true, beq_iff_eq] at hpx hpy
  rw [hpx.1, hpx.2, hpy.1, hpy.2]

lemma get_division_role_isOk (db : DB) (hwf : db.wf)
    (hdm : divisionMembersUnique db) (uid did : Nat) :
    ∃ o, get_division_role db uid did = .ok o := by
  unfold get_division_role
  rw [scalarOneOrNone_users db hwf uid, okBind]
  cases db.users.find? (fun u => u.id == uid) with
  | none => exact ⟨none, rfl⟩
  | some u =>
    rcases scalarOneOrNone_of_short _
      (divisionMembers_filter_short db hdm uid did) with ⟨o, ho⟩
    refine ⟨o.map (·.role), ?_⟩
    show (scalarOneOrNone (db.division_members.filter
        (fun m => m.person_id == uid && m.division_id == did)) >>=
      fun membership => pure (membership.map (·.role))) = _
    rw [ho, okBind]
    rfl

lemma get_team_role_isOk (db : DB) (htm : teamMembersUnique db)
    (uid tid : Nat) : ∃ o, get_team_role db uid tid = .ok o := by
  unfold get_team_role
  rcases scalarOneOrNone_of_short _
    (teamMembers_filter_short db htm uid tid) with ⟨o, ho⟩
  refine ⟨o.map (·.role), ?_⟩
  rw [ho, okBind]
  rfl

lemma anyAdminRole_isOk (db : DB) (hwf : db.wf)
    (hdm : divisionMembersUnique db) (uid : Nat) :
    ∀ ds, ∃ b, anyAdminRole db uid ds = .ok b := by
  intro ds
  induction ds with
  | nil => exact ⟨false, rfl⟩
  | cons d rest ih =>
    rcases get_division_role_isOk db hwf hdm uid d with ⟨o, ho⟩
    rcases ih with ⟨b, hb⟩
    by_cases hob : o = some DivisionRole.admin
    · refine ⟨true, ?_⟩
      unfold anyAdminRole
      simp [ho, hob]
    · refine ⟨b, ?_⟩
      unfold anyAdminRole
      simp [ho, hob, hb]

lemma anyRoleAtAll_isOk (db : DB) (hwf : db.wf)
    (hdm : divisionMembersUnique db) (uid : Nat) :
    ∀ ds, ∃ b, anyRoleAtAll db uid ds = .ok b := by
  intro ds
  induction ds with
  | nil => exact ⟨false, rfl⟩
  | cons d rest ih =>
    rcases get_division_role_isOk db hwf hdm uid d with ⟨o, ho⟩
    rcases ih with ⟨b, hb⟩
    cases hob : o.isSome with
    | true =>
      refine ⟨true, ?_⟩
      unfold anyRoleAtAll
      simp [ho, hob]
    | false =>
      refine ⟨b, ?_⟩
      unfold anyRoleAtAll
      simp [ho, hob, hb]

lemma can_manage_division_isOk (db : DB) (hwf : db.wf) (rank : Nat → Nat)
    (hrk : rankOk db rank = true) (hdm : divisionMembersUnique db)
    (uid did : Nat) : ∃ b, can_manage_division db uid did = .ok b := by
  rcases has_elevated_isOk db hwf uid with ⟨e, he⟩
  unfold can_manage_division
  rw [he, okBind]
  cases e with
  | true => exact ⟨true, rfl⟩
  | false =>
    rcases get_division_role_isOk db hwf hdm uid did with ⟨o, ho⟩
    rcases get_division_ancestors_ok db hwf rank hrk did with ⟨l, hl, _⟩
    rcases anyAdminRole_isOk db hwf hdm uid l with ⟨b, hb⟩
    by_cases hob : o = some DivisionRole.admin
    · exact ⟨true, by simp [ho, hob]⟩
    · exact ⟨b, by simp [ho, hob, hl, hb]⟩

lemma can_view_division_isOk (db : DB) (hwf : db.wf) (rank : Nat → Nat)
    (hrk : rankOk db rank = true) (hdm : divisionMembersUnique db)
    (uid did : Nat) : ∃ b, can_view_division db uid did = .ok b := by
  rcases has_elevated_isOk db hwf uid with ⟨e, he⟩
  unfold can_view_division
  rw [he, okBind]
  cases e with
  | true => exact ⟨true, rfl⟩
  | false =>
    rcases get_division_role_isOk db hwf hdm uid did with ⟨o, ho⟩
    rcases get_division_ancestors_ok db hwf rank hrk did with ⟨l, hl, _⟩
    rcases anyRoleAtAll_isOk db hwf hdm uid l with ⟨b, hb⟩
    cases hob : o.isSome with
    | true => exact ⟨true, by simp [ho, hob]⟩
    | false => exact ⟨b, by simp [ho, hob, hl, hb]⟩

lemma can_manage_team_isOk (db : DB) (hwf : db.wf) (rank : Nat → Nat)
    (hrk : rankOk db rank = true) (hdm : divisionMembersUnique db)
    (htm : teamMembersUnique db) (uid tid : Nat) :
    ∃ b, can_manage_team db uid tid = .ok b := by
  rcases has_elevated_isOk db hwf uid with ⟨e, he⟩
  unfold can_manage_team
  rw [he, okBind]
  cases e with
  | true => exact ⟨true, rfl⟩
  | false =>
    rcases get_team_role_isOk db htm uid tid with ⟨o, ho⟩
    by_cases hob : o = some TeamRole.manager ∨ o = some TeamRole.coach
    · exact ⟨true, by simp [ho, hob]⟩
    · rw [ho, okBind]
      have hcond : ¬((o == some TeamRole.manager || o == some TeamRole.coach) = true) := by
        simp only [Bool.or_eq_true, beq_iff_eq]
        exact hob
      rw [if_neg hcond, scalarOneOrNone_teams db hwf tid, okBind]
      cases db.teams.find? (fun t => t.id == tid) with
      | none => exact ⟨false, rfl⟩
      | some t =>
        show ∃ b, (match t.division_id with
          | some d => can_manage_division db uid d
          | none => pure false) = .ok b
        cases t.division_id with
        | none => exact ⟨false, rfl⟩
        | some d => exact can_manage_division_isOk db hwf rank hrk hdm uid d

lemma can_view_team_isOk (db : DB) (hwf : db.wf) (rank : Nat → Nat)
    (hrk : rankOk db rank = true) (hdm : divisionMembersUnique db)
    (htm : teamMembersUnique db) (uid tid : Nat) :
    ∃ b, can_view_team db uid tid = .ok b := by
  rcases has_elevated_isOk db hwf uid with ⟨e, he⟩
  unfold can_view_team
  rw [he, okBind]
  cases e with
  | true => exact ⟨true, rfl⟩
  | false =>
    rcases get_team_role_isOk db htm uid tid with ⟨o, ho⟩
    cases hob : o.isSome with
    | true => exact ⟨true, by simp [ho, hob]⟩
    | false =>
      rw [ho, okBind]
      have hcond : ¬(o.isSome = true) := by simp [hob]
      rw [if_neg hcond, scalarOneOrNone_teams db hwf tid, okBind]
      cases db.teams.find? (fun t => t.id == tid) with
      | none => exact ⟨false, rfl⟩
      | some t =>
        show ∃ b, (match t.division_id with
          | some d => can_view_division db uid d
          | none => pure false) = .ok b
        cases t.division_id with
        | none => exact ⟨false, rfl⟩
        | some d => exact can_view_division_isOk db hwf rank hrk hdm uid d

lemma anyManagedDivision_isOk (db : DB) (hwf : db.wf) (rank : Nat → Nat)
    (hrk : rankOk db rank = true) (hdm : divisionMembersUnique db) (uid : Nat) :
    ∀ ms, ∃ b, anyManagedDivision db uid ms = .ok b := by
  intro ms
  induction ms with
  | nil => exact ⟨false, rfl⟩
  | cons m rest ih =>
    rcases can_manage_division_isOk db hwf rank hrk hdm uid m.division_id
      with ⟨b1, hb1⟩
    rcases ih with ⟨b, hb⟩
    cases b1 with
    | true =>
      refine ⟨true, ?_⟩
      unfold anyManagedDivision
      simp [hb1]
    | false =>
      refine ⟨b, ?_⟩
      unfold anyManagedDivision
      simp [hb1, hb]

lemma anyManagedTeam_isOk (db : DB) (hwf : db.wf) (rank : Nat → Nat)
    (hrk : rankOk db rank = true) (hdm : divisionMembersUnique db)
    (htm : teamMembersUnique db) (uid : Nat) :
    ∀ ms, ∃ b, anyManagedTeam db uid ms = .ok b := by
  intro ms
  induction ms with
  | nil => exact ⟨false, rfl⟩
  | cons m rest ih =>
    rcases can_manage_team_isOk db hwf rank hrk hdm htm uid m.team_id
      with ⟨b1, hb1⟩
    rcases ih with ⟨b, hb⟩
    cases b1 with
    | true =>
      refine ⟨true, ?_⟩
      unfold anyManagedTeam
      simp [hb1]
    | false =>
      refine ⟨b, ?_⟩
      unfold anyManagedTeam
      simp [hb1, hb]

lemma can_manage_person_isOk (db : DB) (hwf : db.wf) (rank : Nat → Nat)
    (hrk : rankOk db rank = true) (hdm : divisionMembersUnique db)
    (htm : teamMembersUnique db) (uid pid : Nat) :
    ∃ b, can_manage_person db uid pid = .ok b := by
  rcases has_elevated_isOk db hwf uid with ⟨e, he⟩
  unfold can_manage_person
  rw [he, okBind]
  cases e with
  | true => exact ⟨true, rfl⟩
  | false =>
    rcases anyManagedDivision_isOk db hwf rank hrk hdm uid
      (db.division_members.filter (fun m => m.person_id == pid)) with ⟨b1, hb1⟩
    rcases anyManagedTeam_isOk db hwf rank hrk hdm htm uid
      (db.team_members.filter (fun m => m.person_id == pid)) with ⟨b2, hb2⟩
    by_cases hup : uid = pid
    · exact ⟨true, by simp [hup]⟩
    · cases b1 with
      | true => exact ⟨true, by simp [hup, hb1]⟩
      | false => exact ⟨b2, by simp [hup, hb1, hb2]⟩

lemma three_distinct_length {α : Type} [DecidableEq α] {l : List α} {x y z : α}
    (hx : x ∈ l) (hy : y ∈ l) (hz : z ∈ l) (hxy : x ≠ y) (hxz : x ≠ z)
    (hyz : y ≠ z) : 3 ≤ l.length := by
  have hsub : ({x, y, z} : Finset α) ⊆ l.toFinset := by
    intro w hw
    rw [List.mem_toFinset]
    rcases Finset.mem_insert.mp hw with rfl | hw2
    · exact hx
    rcases Finset.mem_insert.mp hw2 with rfl | hw3
    · exact hy
    rw [Finset.mem_singleton] at hw3
    exact hw3 ▸ hz
  have hcard : ({x, y, z} : Finset α).card = 3 := by
    rw [Finset.card_insert_of_not_mem (by simp [hxy, hxz]),
      Finset.card_insert_of_not_mem (by simp [hyz]), Finset.card_singleton]
  calc 3 = ({x, y, z} : Finset α).card := hcard.symm
    _ ≤ l.toFinset.card := Finset.card_le_card hsub
    _ ≤ l.length := l.toFinset_card_le

lemma ancestors_of_chain4 (db : DB) (hwf : db.wf) {r a b c : Nat}
    (hc : findDivision db c = some ⟨c, some b⟩)
    (hb : findDivision db b = some ⟨b, some a⟩)
    (ha : findDivision db a = some ⟨a, some r⟩)
    (hr : findDivision db r = some ⟨r, none⟩)
    (hab : a ≠ b) (hac : a ≠ c) (hbc : b ≠ c) :
    get_division_ancestors db c = .ok [b, a, r] := by
  have h1 : ancestorsFuel db 1 r = .ok [] := ancestorsFuel_root db hwf hr rfl 0
  have h2 : ancestorsFuel db 2 a = .ok [r] := ancestorsFuel_step db hwf ha rfl 1 h1
  have h3 : ancestorsFuel db 3 b = .ok [a, r] := ancestorsFuel_step db hwf hb rfl 2 h2
  have h4 : ancestorsFuel db 4 c = .ok [b, a, r] :=
    ancestorsFuel_step db hwf hc rfl 3 h3
  have hlen : 3 ≤ db.divisions.length :=
    three_distinct_length (findDivision_mem hc) (findDivision_mem hb)
      (findDivision_mem ha)
      (fun hcontra => hbc (congrArg DivisionRec.id hcontra).symm)
      (fun hcontra => hac (congrArg DivisionRec.id hcontra).symm)
      (fun hcontra => hab (congrArg DivisionRec.id hcontra).symm)
  exact ancestorsFuel_mono db hwf 4 c [b, a, r] h4 (db.divisions.length + 1)
    (by omega)

/-! ## Claim theorems -/

/-- C4: for an acyclic division chain root→A→B→C (here r→a→b→c, pairwise
distinct ids with the given parent records) and a user with no global role,
a DivisionMember row with role `admin` on the root makes
`can_manage_division(user, C)` true; a `member` role on the root instead
yields `can_manage_division(user, C) = false` but
`can_view_division(user, C) = true`. -/
theorem hierarchy_admin_propagates_C4 (db : DB) (uid r a b c : Nat)
    (u : UserRec) (hwf : db.wf)
    (hrb : r ≠ b) (hra : r ≠ a) (hrc : r ≠ c)
    (hab : a ≠ b) (hac : a ≠ c) (hbc : b ≠ c)
    (hc : findDivision db c = some ⟨c, some b⟩)
    (hb : findDivision db b = some ⟨b, some a⟩)
    (ha : findDivision db a = some ⟨a, some r⟩)
    (hr : findDivision db r = some ⟨r, none⟩)
    (hu : u ∈ db.users) (huid : u.id = uid)
    (hng : ∀ ur ∈ db.user_roles, ur.user_id ≠ uid) :
    (db.division_members.filter (fun m => m.person_id == uid) =
        [⟨r, uid, DivisionRole.admin⟩] →
      can_manage_division db uid c = .ok true) ∧
    (db.division_members.filter (fun m => m.person_id == uid) =
        [⟨r, uid, DivisionRole.member⟩] →
      can_manage_division db uid c = .ok false ∧
      can_view_division db uid c = .ok true) := by
  subst huid
  have helev : has_elevated_privileges db u.id = .ok false :=
    has_elevated_no_rows db u.id hng
  have hanc : get_division_ancestors db c = .ok [b, a, r] :=
    ancestors_of_chain4 db hwf hc hb ha hr hab hac hbc
  have hflt : ∀ (role : DivisionRole) (did : Nat),
      db.division_members.filter (fun m => m.person_id == u.id) =
        [⟨r, u.id, role⟩] →
      db.division_members.filter
          (fun m => m.person_id == u.id && m.division_id == did) =
        ([⟨r, u.id, role⟩] : List DivisionMemberRec).filter
          (fun m => m.division_id == did) := by
    intro role did hmem
    rw [filter_and_split, hmem]
  constructor
  · intro hmem
    have hrole_c : get_division_role db u.id c = .ok none := by
      apply get_division_role_of_nil db hwf hu c
      rw [hflt _ c hmem]
      simp [beq_eq_false_iff_ne.mpr hrc]
    have hrole_b : get_division_role db u.id b = .ok none := by
      apply get_division_role_of_nil db hwf hu b
      rw [hflt _ b hmem]
      simp [beq_eq_false_iff_ne.mpr hrb]
    have hrole_a : get_division_role db u.id a = .ok none := by
      apply get_division_role_of_nil db hwf hu a
      rw [hflt _ a hmem]
      simp [beq_eq_false_iff_ne.mpr hra]
    have hrole_r : get_division_role db u.id r =
        .ok (some DivisionRole.admin) := by
      apply get_division_role_of_single db hwf hu r
        (m := ⟨r, u.id, DivisionRole.admin⟩)
      rw [hflt _ r hmem]
      simp
    have hloop : anyAdminRole db u.id [b, a, r] = .ok true := by
      simp [anyAdminRole, hrole_b, hrole_a, hrole_r]
    unfold can_manage_division
    simp [helev, hrole_c, hanc, hloop]
  · intro hmem
    have hrole_c : get_division_role db u.id c = .ok none := by
      apply get_division_role_of_nil db hwf hu c
      rw [hflt _ c hmem]
      simp [beq_eq_false_iff_ne.mpr hrc]
    have hrole_b : get_division_role db u.id b = .ok none := by
      apply get_division_role_of_nil db hwf hu b
      rw [hflt _ b hmem]
      simp [beq_eq_false_iff_ne.mpr hrb]
    have hrole_a : get_division_role db u.id a = .ok none := by
      apply get_division_role_of_nil db hwf hu a
      rw [hflt _ a hmem]
      simp [beq_eq_false_iff_ne.mpr hra]
    have hrole_r : get_division_role db u.id r =
        .ok (some DivisionRole.member) := by
      apply get_division_role_of_single db hwf hu r
        (m := ⟨r, u.id, DivisionRole.member⟩)
      rw [hflt _ r hmem]
      simp
    have hloopM : anyAdminRole db u.id [b, a, r] = .ok false := by
      simp [anyAdminRole, hrole_b, hrole_a, hrole_r]
    have hloopV : anyRoleAtAll db u.id [b, a, r] = .ok true := by
      simp [anyRoleAtAll, hrole_b, hrole_a, hrole_r]
    constructor
    · unfold can_manage_division
      simp [helev, hrole_c, hanc, hloopM]
    · unfold can_view_division
      simp [helev, hrole_c, hanc, hloopV]

/-- C4 witness: the hierarchy theorem instantiated on the concrete chain
100→101→102→103. -/
theorem hierarchy_admin_propagates_C4_witness :
    can_manage_division chainAdminDB 1 103 = .ok true ∧
    can_manage_division chainMemberDB 1 103 = .ok false ∧
    can_view_division chainMemberDB 1 103 = .ok true := by
  refine ⟨?_, ?_, ?_⟩
  · exact (hierarchy_admin_propagates_C4 chainAdminDB 1 100 101 102 103
      ⟨1, "u", "h", true⟩
      ⟨by decide, by decide, by decide, by decide, by decide, by decide⟩
      (by decide) (by decide) (by decide) (by decide) (by decide) (by decide)
      rfl rfl rfl rfl (by decide) rfl (by simp [chainAdminDB])).1 rfl
  · exact ((hierarchy_admin_propagates_C4 chainMemberDB 1 100 101 102 103
      ⟨1, "u", "h", true⟩
      ⟨by decide, by decide, by decide, by decide, by decide, by decide⟩
      (by decide) (by decide) (by decide) (by decide) (by decide) (by decide)
      rfl rfl rfl rfl (by decide) rfl
      (by simp [chainMemberDB, chainAdminDB])).2 rfl).1
  · exact ((hierarchy_admin_propagates_C4 chainMemberDB 1 100 101 102 103
      ⟨1, "u", "h", true⟩
      ⟨by decide, by decide, by decide, by decide, by decide, by decide⟩
      (by decide) (by decide) (by decide) (by decide) (by decide) (by decide)
      rfl rfl rfl rfl (by decide) rfl
      (by simp [chainMemberDB, chainAdminDB])).2 rfl).2

/-- C6: on a store whose parent pointers are acyclic (certified by a rank
function that decreases from child to parent and is bounded by the store
size), `get_division_ancestors` terminates with an `ok` result, and the
returned list is exactly the nearest-first parent chain, stopping at a
division with a null parent or at a missing record — without raising. -/
theorem ancestors_terminate_C6 (db : DB) (rank : Nat → Nat)
    (division_id : Nat) (hwf : db.wf) (hrk : rankOk db rank = true) :
    ∃ l, get_division_ancestors db division_id = .ok l ∧
      isAncestorChain db division_id l :=
  get_division_ancestors_ok db hwf rank hrk division_id

/-- C6 witness: the termination theorem instantiated on the concrete chain,
with rank i = i - 99. -/
theorem ancestors_terminate_C6_witness :
    ∃ l, get_division_ancestors chainAdminDB 103 = .ok l ∧
      isAncestorChain chainAdminDB 103 l :=
  ancestors_terminate_C6 chainAdminDB (fun i => i - 99) 103
    ⟨by decide, by decide, by decide, by decide, by decide, by decide⟩
    (by decide)

/-- C2 counterexample: with a duplicate (person, division) membership row —
permitted by the schema — `can_manage_division` and `can_view_division`
raise SQLAlchemy's `MultipleResultsFound` instead of returning a
boolean. -/
theorem permission_predicates_raise_C2_counterexample :
    can_manage_division dupMembershipDB 1 10 = .error .multipleResults ∧
    can_view_division dupMembershipDB 1 10 = .error .multipleResults := by
  constructor <;> rfl

/-- C2 (amended): on a well-formed store whose division hierarchy is
acyclic and in which each (person, division) and (person, team) pair has at
most one membership row, all five permission predicates return a boolean
and never raise. -/
theorem permission_predicates_total_C2 (db : DB) (rank : Nat → Nat)
    (uid did tid pid : Nat) (hwf : db.wf) (hrk : rankOk db rank = true)
    (hdm : divisionMembersUnique db) (htm : teamMembersUnique db) :
    (∃ b, can_manage_division db uid did = .ok b) ∧
    (∃ b, can_view_division db uid did = .ok b) ∧
    (∃ b, can_manage_team db uid tid = .ok b) ∧
    (∃ b, can_view_team db uid tid = .ok b) ∧
    (∃ b, can_manage_person db uid pid = .ok b) :=
  ⟨can_manage_division_isOk db hwf rank hrk hdm uid did,
   can_view_division_isOk db hwf rank hrk hdm uid did,
   can_manage_team_isOk db hwf rank hrk hdm htm uid tid,
   can_view_team_isOk db hwf rank hrk hdm htm uid tid,
   can_manage_person_isOk db hwf rank hrk hdm htm uid pid⟩

/-- C2 witness: totality of the five predicates on the concrete chain
store. -/
theorem permission_predicates_total_C2_witness :
    (∃ b, can_manage_division chainAdminDB 1 103 = .ok b) ∧
    (∃ b, can_view_division chainAdminDB 1 103 = .ok b) ∧
    (∃ b, can_manage_team chainAdminDB 1 55 = .ok b) ∧
    (∃ b, can_view_team chainAdminDB 1 55 = .ok b) ∧
    (∃ b, can_manage_person chainAdminDB 1 7 = .ok b) :=
  permission_predicates_total_C2 chainAdminDB (fun i => i - 99) 1 103 55 7
    ⟨by decide, by decide, by decide, by decide, by decide, by decide⟩
    (by decide)
    (by unfold divisionMembersUnique; decide)
    (by unfold teamMembersUnique; decide)

/-- C3 counterexample: a string that is not an argon2 hash makes
`PasswordHasher.verify` raise `InvalidHashError`, which `verify_password`
does not catch (it only catches `VerifyMismatchError`), so the caller sees
an exception instead of `false`. -/
theorem verify_password_raises_C3_counterexample :
    verify_password "pw" "not-an-argon2-hash" = .error .invalidHash ∧
    verify_password "pw" "not-an-argon2-hash" ≠ .ok false := by
  constructor
  · rfl
  · intro h
    exact Except.noConfusion h

/-- C3 (amended): for a well-formed argon2 hash, `verify_password` returns
a boolean — true exactly when the password matches the hashed one — and
never raises; a malformed hash instead raises the uncaught
`InvalidHashError`. -/
theorem verify_password_wellformed_C3 (password p : String) :
    verify_password password (hash_password p) = .ok (password == p) := by
  by_cases h : password = p
  · subst h
    have hv : ph_verify (hash_password password) password = Argon2Result.ok := by
      unfold ph_verify
      rw [if_pos rfl]
    unfold verify_password
    rw [hv]
    simp
  · have hneq : hash_password p ≠ hash_password password := fun hcon =>
      h (hash_password_inj hcon).symm
    have hpre : argonTag.isPrefixOf (hash_password p).data = true := by
      show argonTag.isPrefixOf (argonTag ++ p.data) = true
      exact isPrefixOf_append_self argonTag p.data
    have hv : ph_verify (hash_password p) password = Argon2Result.mismatch := by
      unfold ph_verify
      rw [if_neg hneq, if_pos hpre]
    unfold verify_password
    rw [hv]
    simp [beq_eq_false_iff_ne.mpr h]

/-- C8: before expiry, decoding a freshly issued access token succeeds with
`sub = str(user_id)`; at or after `exp` it is invalid; a token whose `type`
claim is not "access", a token signed with a different key, and a malformed
token are all invalid — and `decode_access_token` never raises. -/
theorem access_token_roundtrip_C8 (user_id : Nat) (username : String)
    (now now2 : Nat) :
    (now2 < now + ACCESS_TOKEN_EXPIRE_MINUTES * 60 →
      decode_access_token (create_access_token user_id username now) now2 =
        some { sub := toString user_id, username := username,
               exp := now + ACCESS_TOKEN_EXPIRE_MINUTES * 60,
               type := "access" }) ∧
    (now + ACCESS_TOKEN_EXPIRE_MINUTES * 60 ≤ now2 →
      decode_access_token (create_access_token user_id username now) now2 =
        none) ∧
    (∀ (p : JwtPayload) (k : String), p.type ≠ "access" →
      decode_access_token (jwt_encode p k) now2 = none) ∧
    (∀ (p : JwtPayload) (k : String), k ≠ JWT_SECRET_KEY →
      decode_access_token (.signed p k) now2 = none) ∧
    (∀ s, decode_access_token (.malformed s) now2 = none) := by
  refine ⟨?_, ?_, ?_, ?_, ?_⟩
  · intro h
    simp [decode_access_token, jwt_decode, create_access_token, jwt_encode, h]
  · intro h
    have h2 : ¬(now2 < now + ACCESS_TOKEN_EXPIRE_MINUTES * 60) := by omega
    simp [decode_access_token, jwt_decode, create_access_token, jwt_encode, h2]
  · intro p k hp
    by_cases hc : k = JWT_SECRET_KEY ∧ now2 < p.exp
    · simp [decode_access_token, jwt_decode, jwt_encode, hc, hp]
    · simp [decode_access_token, jwt_decode, jwt_encode, hc]
  · intro p k hk
    simp [decode_access_token, jwt_decode, hk]
  · intro s
    simp [decode_access_token, jwt_decode]

/-- C8 witness: the round trip evaluated for user 7 at issue time 100,
decoding before (t=200) and at (t=1000) the expiry. -/
theorem access_token_roundtrip_C8_witness :
    decode_access_token (create_access_token 7 "alice" 100) 200 =
      some { sub := "7", username := "alice", exp := 1000, type := "access" } ∧
    decode_access_token (create_access_token 7 "alice" 100) 1000 = none :=
  ⟨(access_token_roundtrip_C8 7 "alice" 100 200).1 (by decide),
   (access_token_roundtrip_C8 7 "alice" 100 1000).2.1 (by decide)⟩

lemma scalarOneOrNone_ok_none {α : Type} {l : List α}
    (h : scalarOneOrNone l = .ok none) : l = [] := by
  match l with
  | [] => rfl
  | [a] => simp [scalarOneOrNone] at h
  | a :: b :: t => simp [scalarOneOrNone] at h

lemma scalarOneOrNone_ok_some {α : Type} {l : List α} {a : α}
    (h : scalarOneOrNone l = .ok (some a)) : l = [a] := by
  match l with
  | [] => simp [scalarOneOrNone] at h
  | [b] =>
    have hb : b = a := by simpa [scalarOneOrNone] using h
    rw [hb]
  | a :: b :: t => simp [scalarOneOrNone] at h

lemma mem_globalRoleRows {db : DB} {uid : Nat} {n : String} {ur : UserRoleRec}
    (h : ur ∈ globalRoleRows db uid n) :
    ur ∈ db.user_roles ∧ ur.user_id = uid ∧
      ∃ r ∈ db.roles, r.id = ur.role_id ∧ r.name = n := by
  rcases List.mem_flatMap.mp h with ⟨a, ha, hin⟩
  by_cases hau : a.user_id = uid
  · rw [beq_iff_eq.mpr hau, if_pos rfl] at hin
    rcases List.mem_map.mp hin with ⟨r, hr, rfl⟩
    have hrf := List.mem_filter.mp hr
    have hcond := hrf.2
    simp only [Bool.and_eq_true, beq_iff_eq] at hcond
    exact ⟨ha, hau, r, hrf.1, hcond.1, hcond.2⟩
  · rw [beq_eq_false_iff_ne.mpr hau] at hin
    simp at hin

/-- C9: global role assignment is idempotent — assigning an existing role
twice leaves exactly one matching UserRole row, with the second call a
no-op success — and assigning a nonexistent role name fails without
modifying any state. -/
theorem assign_global_role_idempotent_C9 (db : DB) (uid : Nat)
    (role_name : String) (hwf : db.wf) :
    (∀ role ∈ db.roles, role.name = role_name →
      ∃ db1, assign_global_role db uid role_name = .ok (true, db1) ∧
        assign_global_role db1 uid role_name = .ok (true, db1) ∧
        (db1.user_roles.filter
          (fun ur => ur.user_id == uid && ur.role_id == role.id)).length = 1) ∧
    ((∀ role ∈ db.roles, role.name ≠ role_name) →
      assign_global_role db uid role_name = .ok (false, db)) := by
  constructor
  · intro role hrole hname
    subst hname
    have hfiltr : db.roles.filter (fun r => r.name == role.name) = [role] :=
      filter_eq_single_of_nodup_key (fun r => r.name) _ db.roles
        hwf.roles_name_nodup role hrole (by simp)
        (fun x _ hpx => beq_iff_eq.mp hpx)
    have hinner : (db.roles.filter
        (fun r => r.id == role.id && r.name == role.name)) = [role] :=
      filter_eq_single_of_nodup_key (fun r => r.id) _ db.roles
        hwf.roles_id_nodup role hrole (by simp)
        (fun x _ hpx => by
          simp only [Bool.and_eq_true, beq_iff_eq] at hpx
          exact hpx.1)
    rcases scalarOneOrNone_of_short _
      (globalRoleRows_length_le_one db hwf uid role.name) with ⟨o, ho⟩
    cases o with
    | none =>
      have hrows : globalRoleRows db uid role.name = [] :=
        scalarOneOrNone_ok_none ho
      have hheld : has_global_role db uid role.name = .ok false := by
        unfold has_global_role
        rw [ho]
        rfl
      have hcall1 : assign_global_role db uid role.name =
          .ok (true, { db with user_roles :=
            db.user_roles ++ [(⟨uid, role.id⟩ : UserRoleRec)] }) := by
        unfold assign_global_role
        rw [hfiltr]
        show (Except.ok (some role) >>= _) = _
        rw [okBind]
        show (has_global_role db uid role.name >>= _) = _
        rw [hheld, okBind]
        rfl
      have hrows1 : globalRoleRows
          { db with user_roles := db.user_roles ++ [(⟨uid, role.id⟩ : UserRoleRec)] }
          uid role.name = [(⟨uid, role.id⟩ : UserRoleRec)] := by
        unfold globalRoleRows
        rw [List.flatMap_append]
        have hold : db.user_roles.flatMap (fun ur =>
            if ur.user_id == uid then
              (db.roles.filter
                (fun r => r.id == ur.role_id && r.name == role.name)).map
                (fun _ => ur)
            else []) = [] := hrows
        rw [hold]
        simp [hinner]
      have hheld1 : has_global_role
          { db with user_roles := db.user_roles ++ [(⟨uid, role.id⟩ : UserRoleRec)] }
          uid role.name = .ok true := by
        unfold has_global_role
        rw [hrows1]
        rfl
      have hcall2 : assign_global_role
          { db with user_roles := db.user_roles ++ [(⟨uid, role.id⟩ : UserRoleRec)] }
          uid role.name =
          .ok (true, { db with user_roles :=
            db.user_roles ++ [(⟨uid, role.id⟩ : UserRoleRec)] }) := by
        unfold assign_global_role
        rw [show ({ db with user_roles :=
            db.user_roles ++ [(⟨uid, role.id⟩ : UserRoleRec)] } : DB).roles.filter
            (fun r => r.name == role.name) = [role] from hfiltr]
        show (Except.ok (some role) >>= _) = _
        rw [okBind]
        show (has_global_role _ uid role.name >>= _) = _
        rw [hheld1, okBind]
        rfl
      have hcount : (({ db with user_roles :=
          db.user_roles ++ [(⟨uid, role.id⟩ : UserRoleRec)] } : DB).user_roles.filter
          (fun ur => ur.user_id == uid && ur.role_id == role.id)).length = 1 := by
        show ((db.user_roles ++ [(⟨uid, role.id⟩ : UserRoleRec)]).filter
          (fun ur => ur.user_id == uid && ur.role_id == role.id)).length = 1
        rw [List.filter_append]
        have hold : db.user_roles.filter
            (fun ur => ur.user_id == uid && ur.role_id == role.id) = [] := by
          apply filter_eq_nil_of
          intro x hx
          by_contra hpx
          have hp := Bool.of_not_eq_false hpx
          simp only [Bool.and_eq_true, beq_iff_eq] at hp
          have hxin : x ∈ globalRoleRows db uid role.name := by
            apply List.mem_flatMap.mpr
            refine ⟨x, hx, ?_⟩
            rw [beq_iff_eq.mpr hp.1, if_pos rfl, hp.2, hinner]
            exact List.mem_cons_self x []
          rw [hrows] at hxin
          cases hxin
        rw [hold]
        simp
      exact ⟨_, hcall1, hcall2, hcount⟩
    | some ur0 =>
      have hrows : globalRoleRows db uid role.name = [ur0] :=
        scalarOneOrNone_ok_some ho
      have hur0 := @mem_globalRoleRows db uid role.name ur0
        (by rw [hrows]; exact List.mem_cons_self ur0 [])
      rcases hur0 with ⟨hmem0, huid0, r', hr'mem, hr'id, hr'name⟩
      have hr'eq : r' = role :=
        List.inj_on_of_nodup_map hwf.roles_name_nodup hr'mem hrole hr'name
      have hrid0 : ur0.role_id = role.id := by rw [← hr'id, hr'eq]
      have hheld : has_global_role db uid role.name = .ok true := by
        unfold has_global_role
        rw [ho]
        rfl
      have hcall : assign_global_role db uid role.name = .ok (true, db) := by
        unfold assign_global_role
        rw [hfiltr]
        show (Except.ok (some role) >>= _) = _
        rw [okBind]
        show (has_global_role db uid role.name >>= _) = _
        rw [hheld, okBind]
        rfl
      refine ⟨db, hcall, hcall, ?_⟩
      have hone : db.user_roles.filter
          (fun ur => ur.user_id == uid && ur.role_id == role.id) = [ur0] := by
        apply filter_eq_single_of_nodup_key
          (fun ur => (ur.user_id, ur.role_id)) _ db.user_roles
          hwf.user_roles_nodup ur0 hmem0
        · simp [huid0, hrid0]
        · intro x _ hpx
          simp only [Bool.and_eq_true, beq_iff_eq] at hpx
          simp [hpx.1, hpx.2, huid0, hrid0]
      rw [hone]
      rfl
  · intro hnone
    have hfiltr : db.roles.filter (fun r => r.name == role_name) = [] :=
      filter_eq_nil_of fun r hr =>
        beq_eq_false_iff_ne.mpr (hnone r hr)
    unfold assign_global_role
    rw [hfiltr]
    rfl

/-- C9 witness: idempotent assignment of the seeded "admin" role to user 1,
and failure of a nonexistent role name. -/
theorem assign_global_role_idempotent_C9_witness :
    (∃ db1, assign_global_role roleDB 1 "admin" = .ok (true, db1) ∧
      assign_global_role db1 1 "admin" = .ok (true, db1) ∧
      (db1.user_roles.filter
        (fun ur => ur.user_id == 1 && ur.role_id == 50)).length = 1) ∧
    assign_global_role roleDB 1 "nosuch" = .ok (false, roleDB) :=
  ⟨(assign_global_role_idempotent_C9 roleDB 1 "admin"
      ⟨by decide, by decide, by decide, by decide, by decide, by decide⟩).1
      ⟨50, "admin"⟩ (by decide) rfl,
   (assign_global_role_idempotent_C9 roleDB 1 "nosuch"
      ⟨by decide, by decide, by decide, by decide, by decide, by decide⟩).2
      (by decide)⟩

/-- C5 counterexample: `update_team` accepts `responsible_id` in its PATCH
body and sets it without touching `promoted_at`, so a proxy team ends up
with a responsible person but no promotion timestamp — the invariant is not
preserved by updates. -/
theorem team_invariant_update_C5_counterexample :
    (update_team proxyTeamDB 1 5 setResponsibleUpdate).map
      (fun p => (p.1.responsible_id, p.1.promoted_at)) = .ok (some 2, none) := by
  rfl

/-- C5 (amended): the promoted_at/responsible_id invariant is established
by team creation and proxy creation and preserved by promotion;
`promote_team` fails with 400, modifying nothing, when the team already has
a responsible person, and on success sets responsible, the optional
division, and `promoted_at = now`.  (`update_team`, by contrast, can break
the invariant by setting `responsible_id` alone.) -/
theorem team_invariant_C5 :
    (∀ (db : DB) (cu : Nat) (data : TeamCreate) (now newId : Nat)
        (t : TeamRec) (db' : DB),
      create_team db cu data now newId = .ok (t, db') →
      t.promotedInv ∧
      ((∀ t0 ∈ db.teams, t0.promotedInv) →
        ∀ t0 ∈ db'.teams, t0.promotedInv)) ∧
    (∀ (db : DB) (data : ProxyTeamCreate) (newId : Nat),
      (create_proxy_team db data newId).1.promotedInv ∧
      ((∀ t0 ∈ db.teams, t0.promotedInv) →
        ∀ t0 ∈ (create_proxy_team db data newId).2.teams, t0.promotedInv)) ∧
    (∀ (db : DB) (cu tid : Nat) (data : TeamPromote) (now : Nat) (t : TeamRec),
      db.teams.filter (fun x => x.id == tid) = [t] →
      t.responsible_id ≠ none →
      promote_team db cu tid data now = .error (.http 400)) ∧
    (∀ (db : DB) (cu tid : Nat) (data : TeamPromote) (now : Nat)
        (t : TeamRec) (db' : DB),
      promote_team db cu tid data now = .ok (t, db') →
      t.responsible_id = some data.responsible_id ∧
      t.division_id = data.division_id ∧
      t.promoted_at = some now ∧
      ((∀ t0 ∈ db.teams, t0.promotedInv) →
        ∀ t0 ∈ db'.teams, t0.promotedInv)) := by
  refine ⟨?_, ?_, ?_, ?_⟩
  · intro db cu data now newId t db' h
    unfold create_team at h
    cases hg : divisionGate db cu data.division_id with
    | error e =>
      rw [hg, errBind] at h
      exact Except.noConfusion h
    | ok u0 =>
      rw [hg, okBind] at h
      have hpair : createTeamInsert db data now newId = (t, db') :=
        Except.ok.inj h
      have ht : t = (createTeamInsert db data now newId).1 := by rw [hpair]
      have hdb : db' = (createTeamInsert db data now newId).2 := by rw [hpair]
      constructor
      · rw [ht]
        unfold createTeamInsert TeamRec.promotedInv
        cases data.responsible_id <;> simp
      · intro hall t0 ht0
        rw [hdb] at ht0
        unfold createTeamInsert at ht0
        rcases List.mem_append.mp ht0 with hold | hnew
        · exact hall t0 hold
        · have := List.mem_singleton.mp hnew
          rw [this]
          unfold TeamRec.promotedInv
          cases data.responsible_id <;> simp
  · intro db data newId
    constructor
    · unfold create_proxy_team TeamRec.promotedInv
      simp
    · intro hall t0 ht0
      unfold create_proxy_team at ht0
      rcases List.mem_append.mp ht0 with hold | hnew
      · exact hall t0 hold
      · have := List.mem_singleton.mp hnew
        rw [this]
        unfold TeamRec.promotedInv
        simp
  · intro db cu tid data now t hfilt hresp
    have hproxy : t.is_proxy = false := by
      unfold TeamRec.is_proxy
      cases hre : t.responsible_id with
      | none => exact absurd hre hresp
      | some x => simp
    unfold promote_team
    rw [hfilt]
    show (Except.ok (some t) >>= _) = _
    rw [okBind]
    simp [hproxy]
  · intro db cu tid data now t db' h
    unfold promote_team at h
    cases hscalar : scalarOneOrNone (db.teams.filter (fun t => t.id == tid)) with
    | error e =>
      rw [hscalar, errBind] at h
      exact Except.noConfusion h
    | ok o =>
      rw [hscalar, okBind] at h
      cases o with
      | none => exact Except.noConfusion h
      | some t0 =>
        cases hpx : t0.is_proxy with
        | false => simp [hpx] at h
        | true =>
          cases hg : divisionGate db cu data.division_id with
          | error e => simp [hpx, hg] at h
          | ok u0 =>
            simp only [hpx, Bool.not_true, Bool.false_eq_true, if_false,
              hg, okBind] at h
            have hpair := Except.ok.inj h
            have ht : t = { t0 with
                responsible_id := some data.responsible_id
                division_id := data.division_id
                promoted_at := some now } :=
              (congrArg Prod.fst hpair).symm
            have hdb : db' = { db with teams := db.teams.map (fun x =>
                if x.id == tid then { x with
                  responsible_id := some data.responsible_id
                  division_id := data.division_id
                  promoted_at := some now } else x) } :=
              (congrArg Prod.snd hpair).symm
            refine ⟨by rw [ht], by rw [ht], by rw [ht], ?_⟩
            intro hall t1 ht1
            rw [hdb] at ht1
            rcases List.mem_map.mp ht1 with ⟨x, hx, hxe⟩
            by_cases hxid : (x.id == tid) = true
            · rw [if_pos hxid] at hxe
              rw [← hxe]
              unfold TeamRec.promotedInv
              simp
            · rw [if_neg hxid] at hxe
              rw [← hxe]
              exact hall x hx

/-- C5 witness: creation with a responsible person establishes the
invariant, proxy creation establishes it, promoting a full team fails with
400, and promoting the proxy team sets responsible and the timestamp. -/
theorem team_invariant_C5_witness :
    (∃ out, create_team proxyTeamDB 1 createWithResponsible 10 7 = .ok out ∧
      out.1.promotedInv) ∧
    (create_proxy_team proxyTeamDB ⟨"P", "Org", none⟩ 8).1.promotedInv ∧
    promote_team fullTeamDB 1 6 promoteToFour 11 = .error (.http 400) ∧
    (∃ out, promote_team proxyTeamDB 1 5 promoteToFour 11 = .ok out ∧
      out.1.responsible_id = some 4 ∧ out.1.promoted_at = some 11) := by
  refine ⟨⟨_, rfl, ?_⟩, ?_, ?_, ⟨_, rfl, ?_, ?_⟩⟩
  · exact (team_invariant_C5.1 proxyTeamDB 1 createWithResponsible 10 7
      _ _ rfl).1
  · exact (team_invariant_C5.2.1 proxyTeamDB ⟨"P", "Org", none⟩ 8).1
  · exact team_invariant_C5.2.2.1 fullTeamDB 1 6 promoteToFour 11 fullTeam
      (by decide) (by decide)
  · exact (team_invariant_C5.2.2.2 proxyTeamDB 1 5 promoteToFour 11
      _ _ rfl).1
  · exact (team_invariant_C5.2.2.2 proxyTeamDB 1 5 promoteToFour 11
      _ _ rfl).2.2.1

/-! ## Token-service evaluation lemmas -/

lemma scalarOneOrNone_users_nodup (users : List UserRec)
    (h : (users.map (·.id)).Nodup) (uid : Nat) :
    scalarOneOrNone (users.filter (fun u => u.id == uid)) =
      .ok (users.find? (fun u => u.id == uid)) :=
  scalarOneOrNone_filter_key (fun u => u.id) users h uid

lemma rt_valid_of_filter {st : AuthState} {t : String} {rt : RefreshTokenRec}
    (hfilt : st.db.refresh_tokens.filter
      (fun r => r.token_hash == hash_token t && r.revoked_at == none) = [rt])
    (now : Nat) (hexp : ¬(rt.expires_at < now)) :
    rt.revoked_at = none ∧ rt.is_valid now = true := by
  have hmem : rt ∈ st.db.refresh_tokens.filter
      (fun r => r.token_hash == hash_token t && r.revoked_at == none) := by
    rw [hfilt]
    exact List.mem_cons_self rt []
  have hpred := (List.mem_filter.mp hmem).2
  simp only [Bool.and_eq_true, beq_iff_eq] at hpred
  refine ⟨hpred.2, ?_⟩
  unfold RefreshTokenRec.is_valid RefreshTokenRec.is_revoked
    RefreshTokenRec.is_expired
  simp [hpred.2, hexp]

lemma refresh_eval_success (st : AuthState) (now : Nat) (ft : String)
    (nid : Nat) (t : String) (uid : Nat) (rt : RefreshTokenRec) (u : UserRec)
    (hcache : redisGet st.redis now (refreshKey (hash_token t)) = some uid)
    (hfilt : st.db.refresh_tokens.filter
      (fun r => r.token_hash == hash_token t && r.revoked_at == none) = [rt])
    (hexp : ¬(rt.expires_at < now))
    (husers : (st.db.users.map (·.id)).Nodup)
    (hu : u ∈ st.db.users) (huid : u.id = uid) (hact : u.is_active = true) :
    refresh_access_token st now ft nid t =
      .ok (some (create_access_token u.id u.username now, ft),
        rotatedState st now ft nid t uid rt u) := by
  subst huid
  have hvalid := (rt_valid_of_filter hfilt now hexp).2
  have hfu : st.db.users.filter (fun x => x.id == u.id) = [u] :=
    filter_eq_single_of_nodup_key (fun x => x.id) (fun x => x.id == u.id)
      st.db.users husers u hu (beq_iff_eq.mpr rfl)
      (fun x _ hx => beq_iff_eq.mp hx)
  simp [refresh_access_token, hcache, hfilt, scalarOneOrNone, hvalid, hact,
    rotatedState, create_refresh_token, hfu]

lemma refresh_eval_nocache (st : AuthState) (now : Nat) (ft : String)
    (nid : Nat) (t : String)
    (hcache : redisGet st.redis now (refreshKey (hash_token t)) = none) :
    refresh_access_token st now ft nid t = .ok (none, st) := by
  simp [refresh_access_token, hcache]

lemma refresh_eval_clean (st : AuthState) (now : Nat) (ft : String)
    (nid : Nat) (t : String) (uid : Nat) (rt : RefreshTokenRec)
    (hcache : redisGet st.redis now (refreshKey (hash_token t)) = some uid)
    (hfilt : st.db.refresh_tokens.filter
      (fun r => r.token_hash == hash_token t && r.revoked_at == none) = [rt])
    (hval : rt.is_valid now = false) :
    refresh_access_token st now ft nid t = .ok (none, cleanState st t uid) := by
  simp [refresh_access_token, hcache, hfilt, scalarOneOrNone, hval, cleanState]

lemma refresh_eval_frame (st : AuthState) (now : Nat) (ft : String)
    (nid : Nat) (t : String) (uid : Nat) (rt : RefreshTokenRec)
    (hcache : redisGet st.redis now (refreshKey (hash_token t)) = some uid)
    (hfilt : st.db.refresh_tokens.filter
      (fun r => r.token_hash == hash_token t && r.revoked_at == none) = [rt])
    (hval : rt.is_valid now = true)
    (husers : (st.db.users.map (·.id)).Nodup)
    (hbad : st.db.users.find? (fun x => x.id == uid) = none ∨
      ∃ u, st.db.users.find? (fun x => x.id == uid) = some u ∧
        u.is_active = false) :
    refresh_access_token st now ft nid t = .ok (none, st) := by
  rcases hbad with hnone | ⟨u, hfind, hinact⟩
  · have hfu : st.db.users.filter (fun x => x.id == uid) = [] :=
      filter_eq_nil_of fun x hx => by
        have hnx := List.find?_eq_none.mp hnone x hx
        simpa using hnx
    simp [refresh_access_token, hcache, hfilt, scalarOneOrNone, hval, hfu]
  · have hmem : u ∈ st.db.users := List.mem_of_find?_eq_some hfind
    have hpu : (u.id == uid) = true := by
      have hp := List.find?_some hfind
      simpa using hp
    have hfu : st.db.users.filter (fun x => x.id == uid) = [u] :=
      filter_eq_single_of_nodup_key (fun x => x.id) (fun x => x.id == uid)
        st.db.users husers u hmem hpu
        (fun x _ hx => (beq_iff_eq.mp hx).trans (beq_iff_eq.mp hpu).symm)
    simp [refresh_access_token, hcache, hfilt, scalarOneOrNone, hval, hfu,
      hinact]

lemma revoke_eval_none (st : AuthState) (now : Nat) (t : String)
    (hfilt : st.db.refresh_tokens.filter
      (fun r => r.token_hash == hash_token t) = []) :
    revoke_refresh_token st now t = .ok (false, st) := by
  simp [revoke_refresh_token, hfilt, scalarOneOrNone]

lemma revoke_eval_some (st : AuthState) (now : Nat) (t : String)
    (rt : RefreshTokenRec)
    (hfilt : st.db.refresh_tokens.filter
      (fun r => r.token_hash == hash_token t) = [rt]) :
    revoke_refresh_token st now t = .ok (true, revokedState st now t rt) := by
  simp [revoke_refresh_token, hfilt, scalarOneOrNone, revokedState]

lemma rotated_users_eq (st : AuthState) (now : Nat) (ft : String) (nid : Nat)
    (t : String) (uid : Nat) (rt : RefreshTokenRec) (u : UserRec) :
    (rotatedState st now ft nid t uid rt u).db.users = st.db.users := rfl

lemma rotated_cache_miss (st : AuthState) (now : Nat) (ft : String) (nid : Nat)
    (t : String) (uid : Nat) (rt : RefreshTokenRec) (u : UserRec) (now2 : Nat)
    (hft : hash_token ft ≠ hash_token t) :
    redisGet (rotatedState st now ft nid t uid rt u).redis now2
      (refreshKey (hash_token t)) = none := by
  have hkey : refreshKey (hash_token t) ≠ refreshKey (hash_token ft) :=
    fun h => hft (refreshKey_inj h).symm
  simp only [rotatedState]
  rw [redisGet_sadd, redisGet_setex_other _ _ _ _ _ _ _ hkey, redisGet_srem,
    redisGet_delete_self]

lemma rotated_cache_hit (st : AuthState) (now : Nat) (ft : String) (nid : Nat)
    (t : String) (uid : Nat) (rt : RefreshTokenRec) (u : UserRec) (now2 : Nat)
    (hnow2 : now2 < now + REFRESH_TOKEN_EXPIRE_DAYS * 24 * 60 * 60) :
    redisGet (rotatedState st now ft nid t uid rt u).redis now2
      (refreshKey (hash_token ft)) = some u.id := by
  simp only [rotatedState]
  rw [redisGet_sadd, redisGet_setex_self]
  simp [hnow2]

lemma rotated_filter_ft (st : AuthState) (now : Nat) (ft : String) (nid : Nat)
    (t : String) (uid : Nat) (rt : RefreshTokenRec) (u : UserRec)
    (hfresh : ∀ r ∈ st.db.refresh_tokens, r.token_hash ≠ hash_token ft) :
    (rotatedState st now ft nid t uid rt u).db.refresh_tokens.filter
        (fun r => r.token_hash == hash_token ft && r.revoked_at == none) =
      [{ id := nid, user_id := u.id, token_hash := hash_token ft,
         device_info := rt.device_info, created_at := now,
         expires_at := now + REFRESH_TOKEN_EXPIRE_DAYS * 24 * 60 * 60,
         revoked_at := none }] := by
  simp only [rotatedState]
  rw [List.filter_append]
  have h1 : (st.db.refresh_tokens.map (fun r =>
      if r.token_hash == hash_token t && r.revoked_at == none then
        { r with revoked_at := some now } else r)).filter
      (fun r => r.token_hash == hash_token ft && r.revoked_at == none) = [] := by
    apply filter_eq_nil_of
    intro x hx
    rcases List.mem_map.mp hx with ⟨r0, hr0, hfr⟩
    have hth : x.token_hash = r0.token_hash := by
      subst hfr
      by_cases hc : (r0.token_hash == hash_token t && r0.revoked_at == none)
        = true
      · simp [hc]
      · simp [hc]
    have hne : x.token_hash ≠ hash_token ft := hth ▸ hfresh r0 hr0
    simp [beq_eq_false_iff_ne.mpr hne]
  rw [h1]
  simp

lemma rotated_record_dead (st : AuthState) (now : Nat) (ft : String)
    (nid : Nat) (t : String) (uid : Nat) (rt : RefreshTokenRec) (u : UserRec)
    (hft : hash_token ft ≠ hash_token t) :
    ∀ r ∈ (rotatedState st now ft nid t uid rt u).db.refresh_tokens,
      r.token_hash = hash_token t → r.revoked_at ≠ none := by
  intro r hr hth
  simp only [rotatedState, List.mem_append] at hr
  rcases hr with hr | hr
  · rcases List.mem_map.mp hr with ⟨r0, hr0, hfr⟩
    by_cases hc : (r0.token_hash == hash_token t && r0.revoked_at == none)
      = true
    · rw [if_pos hc] at hfr
      subst hfr
      simp
    · rw [if_neg hc] at hfr
      subst hfr
      rw [Bool.not_eq_true, Bool.and_eq_false_iff] at hc
      rcases hc with hc | hc
      · exact absurd hth (beq_eq_false_iff_ne.mp hc)
      · intro hnone
        rw [hnone] at hc
        simp at hc
  · simp only [List.mem_singleton] at hr
    subst hr
    exact absurd hth hft

/-- C1: refresh-token rotation.  In any state where the raw refresh token
`t` is valid (cached under its hash, durably recorded unrevoked, unexpired,
owner present and active), `refresh(t)` succeeds, returning a fresh access
token and the fresh refresh token `ft`; afterwards every durable record for
`t` is revoked, the cache entry for `t` is gone, a repeated `refresh(t)` is
rejected as invalid without changing state, and `refresh(ft)` succeeds. -/
theorem refresh_rotation_C1 (st : AuthState) (now now2 nid nid2 : Nat)
    (ft ft2 t : String) (uid : Nat) (rt : RefreshTokenRec) (u : UserRec)
    (hcache : redisGet st.redis now (refreshKey (hash_token t)) = some uid)
    (hfilt : st.db.refresh_tokens.filter
      (fun r => r.token_hash == hash_token t && r.revoked_at == none) = [rt])
    (hexp : ¬(rt.expires_at < now))
    (husers : (st.db.users.map (·.id)).Nodup)
    (hu : u ∈ st.db.users) (huid : u.id = uid) (hact : u.is_active = true)
    (hft : hash_token ft ≠ hash_token t)
    (hfresh : ∀ r ∈ st.db.refresh_tokens, r.token_hash ≠ hash_token ft)
    (hnow2 : now2 < now + REFRESH_TOKEN_EXPIRE_DAYS * 24 * 60 * 60) :
    refresh_access_token st now ft nid t =
      .ok (some (create_access_token u.id u.username now, ft),
        rotatedState st now ft nid t uid rt u) ∧
    (∀ r ∈ (rotatedState st now ft nid t uid rt u).db.refresh_tokens,
      r.token_hash = hash_token t → r.revoked_at ≠ none) ∧
    redisGet (rotatedState st now ft nid t uid rt u).redis now2
      (refreshKey (hash_token t)) = none ∧
    refresh_access_token (rotatedState st now ft nid t uid rt u) now2 ft2
      nid2 t = .ok (none, rotatedState st now ft nid t uid rt u) ∧
    ∃ st2, refresh_access_token (rotatedState st now ft nid t uid rt u) now2
      ft2 nid2 ft =
        .ok (some (create_access_token u.id u.username now2, ft2), st2) := by
  refine ⟨refresh_eval_success st now ft nid t uid rt u hcache hfilt hexp
    husers hu huid hact,
    rotated_record_dead st now ft nid t uid rt u hft,
    rotated_cache_miss st now ft nid t uid rt u now2 hft,
    refresh_eval_nocache _ now2 ft2 nid2 t
      (rotated_cache_miss st now ft nid t uid rt u now2 hft), ?_⟩
  refine ⟨_, refresh_eval_success (rotatedState st now ft nid t uid rt u)
    now2 ft2 nid2 ft u.id
    { id := nid, user_id := u.id, token_hash := hash_token ft,
      device_info := rt.device_info, created_at := now,
      expires_at := now + REFRESH_TOKEN_EXPIRE_DAYS * 24 * 60 * 60,
      revoked_at := none } u
    (rotated_cache_hit st now ft nid t uid rt u now2 hnow2)
    (rotated_filter_ft st now ft nid t uid rt u hfresh)
    (Nat.not_lt.mpr (Nat.le_of_lt hnow2))
    (by rw [rotated_users_eq]; exact husers)
    (by rw [rotated_users_eq]; exact hu) rfl hact⟩

/-- Witness for C1 at the concrete live state: rotating the raw token "t"
with fresh token "f" succeeds and yields the rotated state. -/
theorem refresh_rotation_C1_witness :
    refresh_access_token liveAuthState 5 "f" 2 "t" =
      .ok (some (create_access_token 1 "u" 5, "f"),
        rotatedState liveAuthState 5 "f" 2 "t" 1 liveToken tokenUser) :=
  (refresh_rotation_C1 liveAuthState 5 10 2 3 "f" "g" "t" 1 liveToken
    tokenUser (by decide) (by decide) (by decide) (by decide) (by decide)
    rfl rfl (by decide) (by decide) (by decide)).1

lemma revoked_cache_miss (st : AuthState) (now : Nat) (t : String)
    (rt : RefreshTokenRec) (now2 : Nat) :
    redisGet (revokedState st now t rt).redis now2
      (refreshKey (hash_token t)) = none := by
  simp only [revokedState]
  rw [redisGet_srem, redisGet_delete_self]

lemma revoked_record_dead (st : AuthState) (now : Nat) (t : String)
    (rt : RefreshTokenRec) :
    ∀ r ∈ (revokedState st now t rt).db.refresh_tokens,
      r.token_hash = hash_token t → r.revoked_at = some now := by
  intro r hr hth
  simp only [revokedState] at hr
  rcases List.mem_map.mp hr with ⟨r0, hr0, hfr⟩
  by_cases hc : (r0.token_hash == hash_token t) = true
  · rw [if_pos hc] at hfr
    subst hfr
    rfl
  · rw [if_neg hc] at hfr
    subst hfr
    exact absurd hth (by simpa using hc)

lemma revoked_sismember (st : AuthState) (now : Nat) (t : String)
    (rt : RefreshTokenRec) :
    redisSismember (revokedState st now t rt).redis
      (sessionsKey rt.user_id) (hash_token t) = false := by
  simp only [revokedState]
  exact sismember_srem_self _ _ _

/-- C7: revocation.  `revoke(t)` returns false and leaves the state
unchanged exactly when no durable record carries `hash(t)`; with a matching
record it returns true, marks every record carrying `hash(t)` revoked
regardless of its validity state, removes the cache entry and the
session-set membership, and afterwards a cache lookup by `hash(t)` misses
and `refresh(t)` is rejected as invalid. -/
theorem revoke_refresh_token_C7 (st : AuthState) (now now2 nid2 : Nat)
    (ft2 t : String) (rt : RefreshTokenRec) :
    (st.db.refresh_tokens.filter (fun r => r.token_hash == hash_token t)
        = [] →
      revoke_refresh_token st now t = .ok (false, st)) ∧
    (st.db.refresh_tokens.filter (fun r => r.token_hash == hash_token t)
        = [rt] →
      revoke_refresh_token st now t = .ok (true, revokedState st now t rt) ∧
      (∀ r ∈ (revokedState st now t rt).db.refresh_tokens,
        r.token_hash = hash_token t → r.revoked_at = some now) ∧
      redisGet (revokedState st now t rt).redis now2
        (refreshKey (hash_token t)) = none ∧
      redisSismember (revokedState st now t rt).redis
        (sessionsKey rt.user_id) (hash_token t) = false ∧
      refresh_access_token (revokedState st now t rt) now2 ft2 nid2 t =
        .ok (none, revokedState st now t rt)) :=
  ⟨fun hN => revoke_eval_none st now t hN,
   fun hS => ⟨revoke_eval_some st now t rt hS,
     revoked_record_dead st now t rt,
     revoked_cache_miss st now t rt now2,
     revoked_sismember st now t rt,
     refresh_eval_nocache _ now2 ft2 nid2 t
       (revoked_cache_miss st now t rt now2)⟩⟩

/-- Witness for C7 at the concrete live state: revoking the raw token "t"
returns true and yields the revoked state. -/
theorem revoke_refresh_token_C7_witness :
    revoke_refresh_token liveAuthState 5 "t" =
      .ok (true, revokedState liveAuthState 5 "t" liveToken) :=
  ((revoke_refresh_token_C7 liveAuthState 5 10 3 "g" "t" liveToken).2
    (by decide)).1

/-- C10: implicit frame property of refresh.  With a live cache entry and a
valid durable record for `t`, if the owning user row is missing or marked
inactive then `refresh(t)` reports invalid while leaving the entire state
unchanged — cache entry, session-set membership, durable records and token
set all stay as they were; by contrast, when the durable record is revoked
or expired the stale-cache branch evicts the cache entry (and the
session-set membership) before reporting invalid. -/
theorem refresh_frame_C10 (st : AuthState) (now : Nat) (ft : String)
    (nid : Nat) (t : String) (uid : Nat) (rt : RefreshTokenRec)
    (hcache : redisGet st.redis now (refreshKey (hash_token t)) = some uid)
    (hfilt : st.db.refresh_tokens.filter
      (fun r => r.token_hash == hash_token t && r.revoked_at == none) = [rt])
    (husers : (st.db.users.map (·.id)).Nodup) :
    (rt.is_valid now = true →
      (st.db.users.find? (fun x => x.id == uid) = none ∨
        ∃ u, st.db.users.find? (fun x => x.id == uid) = some u ∧
          u.is_active = false) →
      refresh_access_token st now ft nid t = .ok (none, st)) ∧
    (rt.is_valid now = false →
      refresh_access_token st now ft nid t = .ok (none, cleanState st t uid) ∧
      redisGet (cleanState st t uid).redis now
        (refreshKey (hash_token t)) = none) :=
  ⟨fun hval hbad =>
    refresh_eval_frame st now ft nid t uid rt hcache hfilt hval husers hbad,
   fun hval =>
    ⟨refresh_eval_clean st now ft nid t uid rt hcache hfilt hval,
     by
      simp only [cleanState]
      rw [redisGet_srem, redisGet_delete_self]⟩⟩

/-- Witness for C10 at the concrete state whose owning user is inactive:
refresh of the still-live token "t" returns invalid and the state is
returned unchanged. -/
theorem refresh_frame_C10_witness :
    refresh_access_token inactiveAuthState 5 "f" 2 "t" =
      .ok (none, inactiveAuthState) :=
  (refresh_frame_C10 inactiveAuthState 5 "f" 2 "t" 1 liveToken (by decide)
    (by decide) (by decide)).1 (by decide)
    (Or.inr ⟨{ tokenUser with is_active := false }, by decide, rfl⟩)
